import Mathlib

/- Verification development for the scheduling / upload / reconciliation engine
   (api/services/auto_scheduler.py, api/services/sheets_service.py,
   api/services/scheduler_repo.py).

   Modelling conventions:
   * Instants are integer seconds.  The local civil zone Asia/Taipei is a fixed
     UTC+8 zone without daylight saving, so zone conversion is adding or
     subtracting 28800 seconds.
   * Days are counted so that day `d` has Python weekday `d % 7`
     (epoch day 0 is a Monday); 18:30 local time is second 66600 of a day.
   * Remote calls (YouTube, Google Sheets, Drive) are supplied as explicit
     inputs: either already-fetched data or an `Except` value whose `error`
     case models a raised exception. -/

namespace AutoScheduler

/-- Seconds of offset of the Asia/Taipei zone against UTC (+8 hours). -/
def tpeOffset : Int := 28800

/-- Local (Asia/Taipei) instant, in seconds, of the fixed 18:30 wall-clock
slot (`datetime(day.year, day.month, day.day, 18, 30, 0, 0)` localised) of
day `d`: second 66600 of that day. -/
def candSec (d : Int) : Int := d * 86400 + 66600

/-- Weekday sets per video type in Python numbering (Monday = 0), from
`_alloc_next_free_slots`: `[0, 4] if video_type == "short" else [2]`. -/
def weekdaysFor (videoType : String) : List Int :=
  if videoType = "short" then [0, 4] else [2]

/-- Merged pass of the candidate generator `_iter_1830_on_weekdays` and the
consuming `while len(out) < n` loop of `_alloc_next_free_slots`: starting at
day `day`, advance one day at a time; a day yields a candidate when its 18:30
instant is not before `start` and its weekday is in `wds`; a yielded candidate
not in `occ` is appended to `out` and added to `occ`.  `fuel` bounds the number
of days walked (the Python loop is unbounded; every large enough fuel returns
the same list of length `n`, see `allocAux_length`).  All times are local
Taipei seconds. -/
def allocAux (wds : List Int) (start : Int) (n : Nat) :
    Nat → Int → List Int → List Int → List Int
  | 0, _, _, out => out
  | fuel + 1, day, occ, out =>
    if out.length = n then out
    else
      if start ≤ candSec day ∧ day % 7 ∈ wds then
        if candSec day ∈ occ then allocAux wds start n fuel (day + 1) occ out
        else allocAux wds start n fuel (day + 1) (candSec day :: occ) (out ++ [candSec day])
      else allocAux wds start n fuel (day + 1) occ out

/-- One row of the `video_schedules` table (the Ledger's ScheduleRecord). -/
structure VideoSchedule where
  id : Nat
  lineUserId : Option String := none
  folderId : String := ""
  folderName : String := ""
  videoType : String := "long"
  metaFileId : Option String := none
  metaText : String := ""
  scheduleTime : Option Int := none
  createdAt : Int := 0
  status : String := "scheduled"
  youtubeVideoId : Option String := none
  sheetRow : Nat := 0
  lastError : Option String := none
deriving DecidableEq

/-- Convert a UTC instant to local Taipei seconds and zero the second within
the minute, as `x.astimezone(TZ).replace(second=0, microsecond=0)` does. -/
def tpeMinuteFloor (utcSec : Int) : Int :=
  let l := utcSec + tpeOffset
  l - l % 60

/-- Occupied slots drawn from the ledger by `_alloc_next_free_slots`:
`SELECT schedule_time FROM video_schedules WHERE status IN
('scheduled','uploaded')`, each value converted to Taipei time and rounded to
the minute.  (Rows of these statuses always carry a schedule time; a missing
one contributes nothing.) -/
def dbOccupiedSlots (rows : List VideoSchedule) : List Int :=
  (rows.filter (fun r => r.status = "scheduled" ∨ r.status = "uploaded")).filterMap
    (fun r => r.scheduleTime.map tpeMinuteFloor)

/-- Status fields that `_yt_reserved_slots_tpe` reads from one remote video,
with the ISO `publishAt` string already parsed to UTC seconds (an absent
`publishAt`, a falsy one, or one whose parse raises — skipped by the inner
try/except — is modelled as `none`). -/
structure YtStatusItem where
  privacyStatus : Option String := none
  publishAt : Option Int := none
deriving DecidableEq

/-- Insertion into a membership-based set, as `set.add`. -/
def setAdd (s : List Int) (x : Int) : List Int := if x ∈ s then s else x :: s

/-- Embedding of `_yt_reserved_slots_tpe`.  The remote side is supplied as a
client-availability flag and the outcome `fetch` of the search/list calls: a
missing client or a raised exception yields the empty set, and otherwise every
private video with a future `publishAt` contributes its Taipei minute. -/
def ytReservedSlotsTpe (client : Bool) (fetch : Except String (List YtStatusItem))
    (nowUtcSec : Int) : List Int :=
  if client = false then []
  else
    match fetch with
    | Except.error _ => []
    | Except.ok items =>
      items.foldl (fun occ it =>
        match it.privacyStatus, it.publishAt with
        | some p, some pa =>
          if p = "private" ∧ nowUtcSec < pa then setAdd occ (tpeMinuteFloor pa) else occ
        | _, _ => occ) []

/-- Embedding of `_alloc_next_free_slots`: the occupied set is the union of the
ledger slots and the remote reserved slots; candidates are walked from the day
containing `startLocalSec` (`datetime.now(TZ)` expressed in local seconds); the
chosen Taipei instants are returned converted to UTC seconds.  `fuel` bounds
the days walked by the unbounded Python loop. -/
def allocNextFreeSlots (videoType : String) (rows : List VideoSchedule)
    (client : Bool) (fetch : Except String (List YtStatusItem))
    (startLocalSec : Int) (n fuel : Nat) : List Int :=
  let occ := dbOccupiedSlots rows ++ ytReservedSlotsTpe client fetch (startLocalSec - tpeOffset)
  (allocAux (weekdaysFor videoType) startLocalSec n fuel (startLocalSec / 86400) occ []).map
    (fun t => t - tpeOffset)

/-- Count of occupied instants at or after the 18:30 slot of day `day`; the
measure that bounds how many candidates an occupied set can reject. -/
def occCount (day : Int) (occ : List Int) : Nat :=
  (occ.filter (fun c => decide (candSec day ≤ c))).length

/-- The ledger table state: its rows plus the next surrogate id the store
would assign on insertion. -/
structure LedgerDb where
  rows : List VideoSchedule
  nextId : Nat := 1
deriving DecidableEq

/-- Embedding of `is_folder_scheduled`: `SELECT 1 FROM video_schedules WHERE
folder_id=:fid` — true when any row carries the folder id, regardless of its
status. -/
def is_folder_scheduled (db : LedgerDb) (folderId : String) : Bool :=
  db.rows.any (fun r => r.folderId = folderId)

/-- Embedding of `insert_schedule_basic`: `INSERT … ON CONFLICT (folder_id)
DO NOTHING RETURNING id`.  On conflict nothing is inserted, no id row comes
back and the Python returns 0; otherwise a fresh 'scheduled' row is added. -/
def insert_schedule_basic (db : LedgerDb) (folderId folderName videoType : String)
    (scheduleTimeUtc : Int) (metaText : String) : Nat × LedgerDb :=
  if db.rows.any (fun r => r.folderId = folderId) then (0, db)
  else
    (db.nextId,
      { rows := db.rows ++ [{ id := db.nextId, folderId := folderId,
                              folderName := folderName, videoType := videoType,
                              scheduleTime := some scheduleTimeUtc, metaText := metaText,
                              status := "scheduled" }],
        nextId := db.nextId + 1 })

/-- Embedding of `insert_schedule`: `INSERT … ON CONFLICT (folder_id) DO
UPDATE SET line_user_id = …, …, status = 'scheduled', last_error = NULL
RETURNING id`.  On conflict the existing row is overwritten with the new
intent and its status forced to 'scheduled', whatever it was before. -/
def insert_schedule (db : LedgerDb) (lineUserId : Option String)
    (folderId folderName videoType : String) (metaFileId : Option String)
    (metaText : String) (dtUtc : Int) : Nat × LedgerDb :=
  match db.rows.find? (fun r => r.folderId = folderId) with
  | some r =>
    (r.id,
      { db with rows := db.rows.map (fun x =>
          if x.folderId = folderId then
            { x with lineUserId := lineUserId, folderName := folderName,
                     videoType := videoType, metaFileId := metaFileId,
                     metaText := metaText, scheduleTime := some dtUtc,
                     status := "scheduled", lastError := none }
          else x) })
  | none =>
    (db.nextId,
      { rows := db.rows ++ [{ id := db.nextId, lineUserId := lineUserId,
                              folderId := folderId, folderName := folderName,
                              videoType := videoType, metaFileId := metaFileId,
                              metaText := metaText, scheduleTime := some dtUtc,
                              status := "scheduled" }],
        nextId := db.nextId + 1 })

/-- One value of the map returned by `list_videos_status_map`:
`{"privacyStatus": …, "publishAt": …, "title": …}`, with `publishAt` kept as
already-parsed UTC seconds (`none` for an absent or unparsable value, which
section A of the drift pass skips either way). -/
structure YtMeta where
  privacyStatus : Option String := none
  publishAt : Option Int := none
  title : Option String := none
deriving DecidableEq

/-- Result dictionary of the drift pass. -/
structure DriftOut where
  checked : Nat := 0
  schedAligned : Nat := 0
  publishedFixed : Nat := 0
  undeleted : Nat := 0
  sheetUpdated : Nat := 0
  moved : Nat := 0
  errors : List String := []
deriving DecidableEq

/-- `UPDATE video_schedules SET schedule_time = :t, status = 'scheduled'
WHERE id = :id`. -/
def driftUpdSched (rows : List VideoSchedule) (rid : Nat) (t : Int) :
    List VideoSchedule :=
  rows.map (fun r => if r.id = rid then
    { r with scheduleTime := some t, status := "scheduled" } else r)

/-- `UPDATE video_schedules SET status = :s WHERE id = :id`. -/
def driftUpdStatus (rows : List VideoSchedule) (rid : Nat) (s : String) :
    List VideoSchedule :=
  rows.map (fun r => if r.id = rid then { r with status := s } else r)

/-- Candidate SELECT of `reconcile_youtube_schedule_drift`: rows with a video
id, status uploaded/scheduled/deleted, inside the 60-day schedule window or
the 7-day creation window, ordered by `COALESCE(schedule_time, created_at)`
descending and limited to 500. -/
def driftCandidates (rows : List VideoSchedule) (nowSec : Int) : List VideoSchedule :=
  ((rows.filter (fun r =>
      r.youtubeVideoId ≠ none ∧
      (r.status = "uploaded" ∨ r.status = "scheduled" ∨ r.status = "deleted") ∧
      (r.scheduleTime = none ∨ r.scheduleTime.getD 0 < nowSec + 5184000 ∨
        nowSec - 604800 < r.createdAt))).insertionSort
    (fun a b => b.scheduleTime.getD b.createdAt ≤ a.scheduleTime.getD a.createdAt)).take 500

/-- Python dict insertion: an existing key keeps its position and takes the
new value; a new key is appended. -/
def dictInsert (m : List (String × VideoSchedule)) (k : String) (v : VideoSchedule) :
    List (String × VideoSchedule) :=
  if m.any (fun p => p.1 = k) then m.map (fun p => if p.1 = k then (k, v) else p)
  else m ++ [(k, v)]

/-- The dict comprehension `{r["youtube_video_id"]: r for r in rows if
r["youtube_video_id"]}`. -/
def buildIdMap (rs : List VideoSchedule) : List (String × VideoSchedule) :=
  rs.foldl (fun m r =>
    match r.youtubeVideoId with
    | some v => if v = "" then m else dictInsert m v r
    | none => m) []

/-- Dictionary lookup `meta.get(vid)` on the fetched status map. -/
def lookupAssoc (m : List (String × YtMeta)) (k : String) : Option YtMeta :=
  (m.find? (fun p => p.1 = k)).map Prod.snd

/-- Ledger updates performed for one id-map entry of the drift pass
(sections A, B and C of the loop body; every condition reads the snapshot row
`r` fetched by the SELECT, not the current table).  Section B never updates
`meta_text`: the code reads `meta.get(vid, {}).get("snippet")`, and the
status-map values have no "snippet" key, so the recovered title is always
None. -/
def driftEntryRows (m : YtMeta) (r : VideoSchedule) (rows : List VideoSchedule) :
    List VideoSchedule :=
  let privacy := (m.privacyStatus.getD "").toLower
  let rows1 :=
    match m.publishAt with
    | some apiDt =>
      if (privacy = "private" ∨ privacy = "unlisted") ∧
          (r.scheduleTime = none ∨ 60 < |r.scheduleTime.getD 0 - apiDt|) then
        driftUpdSched rows r.id apiDt
      else rows
    | none => rows
  let rows2 :=
    if privacy = "public" ∧ r.status ≠ "published" then
      driftUpdStatus rows1 r.id "published"
    else rows1
  if (privacy = "private" ∨ privacy = "unlisted" ∨ privacy = "public") ∧
      r.status = "deleted" then
    driftUpdStatus rows2 r.id "uploaded"
  else rows2

/-- Counter/error updates performed for one id-map entry of the drift pass,
mirroring `driftEntryRows` (the ledger updates themselves always succeed in
the model; remote folder moves and sheet writes go through the oracles). -/
def driftEntryOut (m : YtMeta) (r : VideoSchedule)
    (moveOracle : String → Except String String)
    (sheetOracle : Nat → Except String Unit) (out : DriftOut) : DriftOut :=
  let privacy := (m.privacyStatus.getD "").toLower
  let out1 :=
    match m.publishAt with
    | some apiDt =>
      if (privacy = "private" ∨ privacy = "unlisted") ∧
          (r.scheduleTime = none ∨ 60 < |r.scheduleTime.getD 0 - apiDt|) then
        { out with schedAligned := out.schedAligned + 1 }
      else out
    | none => out
  let out2 :=
    if privacy = "public" ∧ r.status ≠ "published" then
      let o := { out1 with publishedFixed := out1.publishedFixed + 1 }
      let moveRes :=
        if r.folderId = "" then (o, "")
        else
          match moveOracle r.folderId with
          | Except.ok url =>
            (if url = "" then o else { o with moved := o.moved + 1 }, url)
          | Except.error err =>
            ({ o with errors := o.errors ++
                ["move id=" ++ toString r.id ++ ": " ++ err] },
             "https://drive.google.com/drive/folders/" ++ r.folderId)
      let o2 := moveRes.1
      if r.sheetRow ≠ 0 ∧ moveRes.2 ≠ "" then
        match sheetOracle r.sheetRow with
        | Except.ok _ => { o2 with sheetUpdated := o2.sheetUpdated + 1 }
        | Except.error err =>
          { o2 with errors := o2.errors ++
              ["sheet id=" ++ toString r.id ++ ": " ++ err] }
      else o2
    else out1
  if (privacy = "private" ∨ privacy = "unlisted" ∨ privacy = "public") ∧
      r.status = "deleted" then
    { out2 with undeleted := out2.undeleted + 1 }
  else out2

/-- Body of `reconcile_youtube_schedule_drift` from the candidate SELECT
onward — the part after the defective debug print, reachable only if that
print were absent (see `reconcile_youtube_schedule_drift`). -/
def reconcile_drift_core (db : LedgerDb) (nowSec : Int)
    (metaFetch : Except String (List (String × YtMeta)))
    (moveOracle : String → Except String String)
    (sheetOracle : Nat → Except String Unit) : DriftOut × LedgerDb :=
  let cands := driftCandidates db.rows nowSec
  let idMap := buildIdMap cands
  if idMap = [] then ({ checked := 0 }, db)
  else
    match metaFetch with
    | Except.error e => ({ checked := idMap.length, errors := ["yt:" ++ e] }, db)
    | Except.ok meta =>
      let res := idMap.foldl (fun acc entry =>
        match lookupAssoc meta entry.1 with
        | none => acc
        | some m => (driftEntryOut m entry.2 moveOracle sheetOracle acc.1,
                     driftEntryRows m entry.2 acc.2))
        ({ checked := idMap.length }, db.rows)
      (res.1, { db with rows := res.2 })

/-- Python local-variable read: a function local read before its first
assignment raises UnboundLocalError. -/
def localLookup (env : List (String × YtMeta)) (x : String) : Except String YtMeta :=
  match env.find? (fun p => p.1 = x) with
  | some p => Except.ok p.2
  | none => Except.error
      ("UnboundLocalError: local variable " ++ x ++ " referenced before assignment")

/-- Embedding of `reconcile_youtube_schedule_drift`.  The function body opens
with `print("=== DEBUG YouTube meta ===")` and `print(json.dumps(meta, …))`;
`meta` is a local of the function (it is assigned only later, after the
candidate SELECT), so the second print raises UnboundLocalError with the
local environment still empty, before the SELECT, any ledger update or any
sheet write; the remainder of the body is `reconcile_drift_core`. -/
def reconcile_youtube_schedule_drift (db : LedgerDb) (nowSec : Int)
    (metaFetch : Except String (List (String × YtMeta)))
    (moveOracle : String → Except String String)
    (sheetOracle : Nat → Except String Unit) : Except String (DriftOut × LedgerDb) :=
  match localLookup [] "meta" with
  | Except.error e => Except.error e
  | Except.ok _ => Except.ok (reconcile_drift_core db nowSec metaFetch moveOracle sheetOracle)

/-- Python `str.strip()`: drop leading and trailing whitespace (modelled on
the character list so that it evaluates inside the kernel). -/
def pyStrip (s : String) : String :=
  String.mk ((((s.toList).dropWhile Char.isWhitespace).reverse.dropWhile
    Char.isWhitespace).reverse)

/-- Python substring containment `pat in s`, on character lists. -/
def isSubChars (pat : List Char) : List Char → Bool
  | [] => pat.isEmpty
  | c :: rest => pat.isPrefixOf (c :: rest) || isSubChars pat rest

/-- Python `pat in hay` on strings. -/
def containsStr (hay pat : String) : Bool := isSubChars pat.toList hay.toList

/-- The spreadsheet columns the row resolver reads, each as a full column:
sheet row `i` is entry `i - 1`, and a missing or blank cell is the empty
string (matching the `row[0] if row else ""` readings; the values API also
truncates trailing empty rows).  `ytid` is the optional pure-id column
(`SHEET_YTID_COL`). -/
structure SheetCols where
  dates : List String := []
  titles : List String := []
  yt : List String := []
  folder : List String := []
  ytid : Option (List String) := none
deriving DecidableEq

/-- Column scan shared by `_find_row_by_youtube_id` and
`_find_row_by_folder_url`: 1-based enumeration, row 1 (the header) skipped,
first matching row wins. -/
def scanColAux (p : String → Bool) : Nat → List String → Option Nat
  | _, [] => none
  | i, c :: rest => if 2 ≤ i ∧ p c = true then some i else scanColAux p (i + 1) rest

def scanCol (p : String → Bool) (col : List String) : Option Nat := scanColAux p 1 col

/-- Embedding of `_find_row_by_youtube_id`: an empty id resolves nothing; the
YT-link column is scanned for a nonempty cell containing the id; failing
that, the optional pure-id column is scanned for a stripped exact match. -/
def find_row_by_youtube_id (cols : SheetCols) (yid : String) : Option Nat :=
  if yid = "" then none
  else
    match scanCol (fun cell => if cell = "" then false else containsStr cell yid) cols.yt with
    | some i => some i
    | none =>
      match cols.ytid with
      | some idCol => scanCol (fun cell => decide (pyStrip cell = yid)) idCol
      | none => none

/-- Embedding of `_find_row_by_folder_url`: an empty URL resolves nothing;
the folder column is scanned for a cell containing the URL. -/
def find_row_by_folder_url (cols : SheetCols) (folderUrl : String) : Option Nat :=
  if folderUrl = "" then none
  else scanCol (fun cell => containsStr cell folderUrl) cols.folder

/-- Loop of `_find_row_by_title_and_date`: for `i` in `2 .. maxLen`
(modelled as `k` remaining indices starting at `i`), collect `(i, date cell
i)` for every row whose title cell equals `t`. -/
def titleCandsAux (titles dates : List String) (t : String) :
    Nat → Nat → List (Nat × String)
  | _, 0 => []
  | i, k + 1 =>
    (if titles.getD (i - 1) "" = t then [(i, dates.getD (i - 1) "")] else []) ++
      titleCandsAux titles dates t (i + 1) k

/-- Embedding of `_find_row_by_title_and_date`: among the title-matching
candidates, the first whose date cell equals `dateStr` wins; otherwise the
first candidate; otherwise nothing. -/
def find_row_by_title_and_date (titles dates : List String) (title dateStr : String) :
    Option Nat :=
  let maxLen := max titles.length dates.length
  let cands := titleCandsAux titles dates title 2 (maxLen - 1)
  match cands.find? (fun p => p.2 = dateStr) with
  | some p => some p.1
  | none => cands.head?.map Prod.fst

/-- Embedding of `resolve_sheet_row`: strategies in code order — by YouTube
id, by folder URL, by title-verified hint, by title + date, and finally the
unverified hint (only when greater than 1).  Python truthiness of the
optional arguments is modelled by `Option.getD` and the emptiness tests. -/
def resolve_sheet_row (cols : SheetCols) (hintRow : Option Nat)
    (expectTitle expectDateStr youtubeId folderUrl : Option String) : Option Nat :=
  match find_row_by_youtube_id cols (youtubeId.getD "") with
  | some r => some r
  | none =>
    match find_row_by_folder_url cols (folderUrl.getD "") with
    | some r => some r
    | none =>
      let hintVerified : Option Nat :=
        match hintRow, expectTitle with
        | some h, some t =>
          if h ≠ 0 ∧ 1 < h ∧ t ≠ "" then
            if cols.titles.getD (h - 1) "" = t then some h else none
          else none
        | _, _ => none
      match hintVerified with
      | some r => some r
      | none =>
        let byTitle : Option Nat :=
          match expectTitle with
          | some t =>
            if t ≠ "" then
              find_row_by_title_and_date cols.titles cols.dates t (expectDateStr.getD "")
            else none
          | none => none
        match byTitle with
        | some r => some r
        | none =>
          match hintRow with
          | some h => if h ≠ 0 ∧ 1 < h then some h else none
          | none => none

/-- Descending sort `sorted(row_indexes, reverse=True)`. -/
def sortDesc (l : List Nat) : List Nat := l.insertionSort (· ≥ ·)

/-- The `deleteDimension` request list built by `delete_rows`: for each index
in descending order, delete grid rows `[idx - 1, idx)` (0-based, half-open). -/
def deleteRowsRequests (rowIndexes : List Nat) : List (Nat × Nat) :=
  (sortDesc rowIndexes).map (fun idx => (idx - 1, idx))

/-- Sequential semantics of one Sheets `batchUpdate` carrying
`deleteDimension` ROWS requests: each request removes the rows `[start,
stop)` of the sheet as it stands when that request applies. -/
def applyDeleteRequests {α : Type} (sheet : List α) (reqs : List (Nat × Nat)) : List α :=
  reqs.foldl (fun s r => s.take r.1 ++ s.drop r.2) sheet

/-- The rows of `sheet` surviving deletion of the 1-based positions in
`bad` (specification side of `delete_rows`). -/
def keepRowsAux {α : Type} (bad : List Nat) : Nat → List α → List α
  | _, [] => []
  | i, a :: rest => (if i ∈ bad then [] else [a]) ++ keepRowsAux bad (i + 1) rest

def keepRows {α : Type} (sheet : List α) (bad : List Nat) : List α :=
  keepRowsAux bad 1 sheet

/-- One character of the id class `[A-Za-z0-9_-]` of `_YT_ID_RE`. -/
def isIdChar (c : Char) : Bool := c.isAlphanum || c = '_' || c = '-'

/-- Try one URL-prefix alternative of `_YT_ID_RE` at the head of `s`: the
prefix must be followed by at least 11 id characters, and those 11 form the
match. -/
def tryAfter (p : String) (s : List Char) : Option (List Char) :=
  if p.toList.isPrefixOf s then
    let rest := s.drop p.toList.length
    if 11 ≤ (rest.takeWhile isIdChar).length then some (rest.take 11) else none
  else none

/-- Leftmost match of the prefixed alternatives of `_YT_ID_RE` (`v=`,
`/shorts/`, `youtu.be/`, `/embed/` followed by 11 id characters).  At any one
position at most one prefix can apply — their first characters differ — so
the in-regex alternation order is immaterial. -/
def findPrefixedId : List Char → Option (List Char)
  | [] => none
  | c :: rest =>
    match tryAfter "v=" (c :: rest) <|> tryAfter "/shorts/" (c :: rest) <|>
        tryAfter "youtu.be/" (c :: rest) <|> tryAfter "/embed/" (c :: rest) with
    | some r => some r
    | none => findPrefixedId rest

/-- Embedding of `_extract_id`: a falsy cell gives ""; otherwise
`_YT_ID_RE.search` on the stripped cell — a URL-prefixed 11-character id at
the leftmost position, else the whole string being exactly 11 id characters
(the `^…$` alternative; it can only fire when no prefixed match exists
anywhere, since '=', '/', '.' are not id characters). -/
def extractId (cell : String) : String :=
  if cell = "" then ""
  else
    let s := (pyStrip cell).toList
    match findPrefixedId s with
    | some r => String.mk r
    | none => if s.length = 11 ∧ s.all isIdChar then String.mk s else ""

/-- Embedding of `_youtube_video_exists`: `oracle vid` is the outcome of the
`videos().list` call (`ok b` = it succeeded and `b` says whether any item
came back); a raised exception is logged and treated as "still exists". -/
def youtube_video_exists (oracle : String → Except String Bool) (vid : String) : Bool :=
  match oracle vid with
  | Except.ok b => b
  | Except.error _ => true

/-- The id a sheet row yields for the deletion audit: the configured column's
cell run through `_extract_id` ("" when the row is too short). -/
def rowYtId (colIdx : Nat) (row : List String) : String :=
  if colIdx < row.length then extractId (row.getD colIdx "") else ""

/-- The deletion reason recorded for one audited row: an id absent from the
ledger whitelist, else — for an id the ledger knows — one whose existence
check explicitly comes back empty. -/
def rowDeleteReason (dbIds : List String) (oracle : String → Except String Bool)
    (colIdx : Nat) (row : List String) : Option String :=
  let y := rowYtId colIdx row
  if y = "" then none
  else if y ∈ dbIds then
    if youtube_video_exists oracle y = false then some "missing_on_youtube" else none
  else some "missing_in_db"

/-- The audit loop of `reconcile_youtube_deletions_and_sheet` over the data
rows (1-based sheet row `idx` starting at 2): collects the rows to delete and
the reasons list; a row with no recognisable id is kept but recorded as
`no_id_in_col`. -/
def auditRowsAux (dbIds : List String) (oracle : String → Except String Bool)
    (colIdx : Nat) : Nat → List (List String) → List Nat × List (Nat × String × String)
  | _, [] => ([], [])
  | idx, row :: rest =>
    let title := pyStrip (row.getD 1 "")
    let y := rowYtId colIdx row
    let restRes := auditRowsAux dbIds oracle colIdx (idx + 1) rest
    if y = "" then (restRes.1, (idx, title, "no_id_in_col") :: restRes.2)
    else
      match rowDeleteReason dbIds oracle colIdx row with
      | some reason => (idx :: restRes.1, (idx, title, reason) :: restRes.2)
      | none => restRes

/-- Result dictionary of `reconcile_youtube_deletions_and_sheet` (abort
returns carry `error` and force `dry_run` true; the success return carries
`total_marked`). -/
structure ReconcileDelOut where
  examined : Nat := 0
  deletedRows : List Nat := []
  dryRun : Bool := true
  reasonsPreview : List (Nat × String × String) := []
  error : Option String := none
  totalMarked : Option Nat := none
deriving DecidableEq

/-- Embedding of `reconcile_youtube_deletions_and_sheet` after its
configuration asserts: `rows` is the `A2:Z` sheet read, `dbIdsRaw` the ledger
id fetch, `oracle` the per-video existence call, `colIdx` the configured id
column (C by default).  Returns the result record paired with the sheet side
effect: `some idxs` exactly when `delete_rows` really runs.  The float ratio
test `len/examined > 0.3` is modelled exactly over ℚ (exact at these
scales). -/
def reconcile_youtube_deletions_and_sheet (rows : List (List String))
    (dbIdsRaw : List String) (oracle : String → Except String Bool)
    (colIdx : Nat) (dryRun : Bool) : ReconcileDelOut × Option (List Nat) :=
  let dbIds := dbIdsRaw.filter (fun x => decide (x ≠ ""))
  let audit := auditRowsAux dbIds oracle colIdx 2 rows
  let toDelete := audit.1
  let examined := rows.length
  let ratio : ℚ := if examined = 0 then 0 else (toDelete.length : ℚ) / (examined : ℚ)
  if dbIds = [] then
    ({ examined := examined, deletedRows := [], dryRun := true,
       reasonsPreview := audit.2.take 20, error := some "DB empty; abort." }, none)
  else if 3 / 10 < ratio ∨ 10 < toDelete.length then
    ({ examined := examined, deletedRows := [], dryRun := true,
       reasonsPreview := audit.2.take 20,
       error := some ("Safety stop: would delete " ++ toString toDelete.length ++ "/" ++
         toString examined ++ " rows") }, none)
  else
    ({ examined := examined, deletedRows := toDelete, dryRun := dryRun,
       reasonsPreview := audit.2.take 20, totalMarked := some toDelete.length },
     if dryRun = false ∧ toDelete ≠ [] then some toDelete else none)

theorem candSec_succ (d : Int) : candSec (d + 1) = candSec d + 86400 := by
  unfold candSec; ring

theorem candSec_ediv (d : Int) : candSec d / 86400 = d := by
  unfold candSec; omega

theorem candSec_emod (d : Int) : candSec d % 86400 = 66600 := by
  unfold candSec; omega

/-- From any day, a day with weekday `w` (with `0 ≤ w < 7`) is at most 6 days
ahead. -/
theorem exists_wd_step (w day : Int) (h0 : 0 ≤ w) (h7 : w < 7) :
    ∃ k : Nat, k ≤ 6 ∧ (day + (k : Int)) % 7 = w := by
  by_cases h : day % 7 ≤ w
  · exact ⟨(w - day % 7).toNat, by omega, by omega⟩
  · exact ⟨(w + 7 - day % 7).toNat, by omega, by omega⟩

/-- Every weekday list produced by `weekdaysFor` is nonempty with entries in
`[0, 7)`. -/
theorem weekdaysFor_wf (videoType : String) :
    (∃ w, w ∈ weekdaysFor videoType) ∧ ∀ w ∈ weekdaysFor videoType, 0 ≤ w ∧ w < 7 := by
  unfold weekdaysFor
  by_cases h : videoType = "short" <;> simp [h]

theorem filter_length_mono {α : Type} {p q : α → Bool} (h : ∀ x, q x = true → p x = true) :
    ∀ l : List α, (l.filter q).length ≤ (l.filter p).length := by
  intro l
  induction l with
  | nil => simp
  | cons x t ih =>
    cases hq : q x with
    | true =>
      simp only [List.filter, hq, h x hq, List.length_cons]
      omega
    | false =>
      cases hp : p x <;> simp only [List.filter, hq, hp, List.length_cons] <;> omega

theorem filter_length_lt {α : Type} {p q : α → Bool} (h : ∀ x, q x = true → p x = true)
    {l : List α} {a : α} (ha : a ∈ l) (hpa : p a = true) (hqa : q a = false) :
    (l.filter q).length < (l.filter p).length := by
  induction l with
  | nil => cases ha
  | cons x t ih =>
    rcases List.mem_cons.mp ha with rfl | hat
    · have hmono := filter_length_mono h t
      simp only [List.filter, hpa, hqa, List.length_cons]
      omega
    · have := ih hat
      cases hq : q x with
      | true =>
        simp only [List.filter, hq, h x hq, List.length_cons]
        omega
      | false =>
        cases hp : p x <;> simp only [List.filter, hq, hp, List.length_cons] <;> omega

theorem occCount_succ_le (day : Int) (occ : List Int) :
    occCount (day + 1) occ ≤ occCount day occ := by
  apply filter_length_mono
  intro x hx
  simp only [decide_eq_true_eq] at hx ⊢
  have := candSec_succ day
  omega

theorem occCount_succ_lt (day : Int) (occ : List Int) (hmem : candSec day ∈ occ) :
    occCount (day + 1) occ < occCount day occ := by
  apply filter_length_lt (a := candSec day) _ hmem
  · simp
  · simp [candSec_succ day]
  · intro x hx
    simp only [decide_eq_true_eq] at hx ⊢
    have := candSec_succ day
    omega

theorem occCount_le_length (day : Int) (occ : List Int) :
    occCount day occ ≤ occ.length := by
  simpa [occCount] using List.length_filter_le _ occ

/-- Soundness invariant of the allocation walk: the result is duplicate-free,
and every element not already in `out` is an 18:30 Taipei instant, not before
`start`, on a weekday in `wds`, and outside the initial occupied set `occ0`. -/
theorem allocAux_invariant (wds : List Int) (start : Int) (n : Nat) (occ0 : List Int) :
    ∀ (fuel : Nat) (day : Int) (occ out : List Int),
      (∀ x, x ∈ occ0 → x ∈ occ) →
      (∀ x, x ∈ out → x < candSec day) →
      out.Nodup →
      (allocAux wds start n fuel day occ out).Nodup ∧
      ∀ x, x ∈ allocAux wds start n fuel day occ out →
        x ∈ out ∨ (start ≤ x ∧ x % 86400 = 66600 ∧ (x / 86400) % 7 ∈ wds ∧ x ∉ occ0) := by
  intro fuel
  induction fuel with
  | zero =>
    intro day occ out _ _ hnd
    exact ⟨hnd, fun x hx => Or.inl hx⟩
  | succ f ih =>
    intro day occ out hocc hbound hnd
    simp only [allocAux]
    by_cases hfull : out.length = n
    · rw [if_pos hfull]
      exact ⟨hnd, fun x hx => Or.inl hx⟩
    · simp only [if_neg hfull]
      by_cases hcond : start ≤ candSec day ∧ day % 7 ∈ wds
      · simp only [if_pos hcond]
        by_cases hin : candSec day ∈ occ
        · simp only [if_pos hin]
          have hb : ∀ x, x ∈ out → x < candSec (day + 1) := by
            intro x hx; have := hbound x hx; have := candSec_succ day; omega
          exact ih (day + 1) occ out hocc hb hnd
        · simp only [if_neg hin]
          have hnotout : candSec day ∉ out := by
            intro hmem
            have := hbound _ hmem
            omega
          have hb : ∀ x, x ∈ out ++ [candSec day] → x < candSec (day + 1) := by
            intro x hx
            have hs := candSec_succ day
            rcases List.mem_append.mp hx with hx | hx
            · have := hbound x hx; omega
            · simp at hx; omega
          have hnd' : (out ++ [candSec day]).Nodup := by
            simp [List.nodup_append, hnd, hnotout]
          have hocc' : ∀ x, x ∈ occ0 → x ∈ candSec day :: occ := by
            intro x hx; exact List.mem_cons_of_mem _ (hocc x hx)
          obtain ⟨rnd, rmem⟩ := ih (day + 1) (candSec day :: occ) (out ++ [candSec day]) hocc' hb hnd'
          refine ⟨rnd, fun x hx => ?_⟩
          rcases rmem x hx with hx' | hx'
          · rcases List.mem_append.mp hx' with hx'' | hx''
            · exact Or.inl hx''
            · simp at hx''
              subst hx''
              refine Or.inr ⟨hcond.1, candSec_emod day, ?_, fun hc => hin (hocc _ hc)⟩
              rw [candSec_ediv]; exact hcond.2
          · exact Or.inr hx'
      · simp only [if_neg hcond]
        have hb : ∀ x, x ∈ out → x < candSec (day + 1) := by
          intro x hx; have := hbound x hx; have := candSec_succ day; omega
        exact ih (day + 1) occ out hocc hb hnd

/-- Fuel sufficiency of the allocation walk: with the next matching weekday at
most `k ≤ 6` days ahead and fuel at least `7·(missing + occupied-ahead) + k + 1`,
the walk returns exactly `n` instants. -/
theorem allocAux_length (wds : List Int) (hbnd : ∀ w ∈ wds, 0 ≤ w ∧ w < 7)
    (start : Int) (n : Nat) :
    ∀ (fuel : Nat) (day : Int) (occ out : List Int) (k : Nat),
      start ≤ candSec day →
      out.length ≤ n →
      ((day + (k : Int)) % 7) ∈ wds → k ≤ 6 →
      7 * ((n - out.length) + occCount day occ) + k + 1 ≤ fuel →
      (allocAux wds start n fuel day occ out).length = n := by
  intro fuel
  induction fuel with
  | zero => intro day occ out k _ _ _ _ hfuel; omega
  | succ f ih =>
    intro day occ out k hstart hlen hk hk6 hfuel
    simp only [allocAux]
    by_cases hfull : out.length = n
    · rw [if_pos hfull]
      exact hfull
    · simp only [if_neg hfull]
      have hlt : out.length < n := Nat.lt_of_le_of_ne hlen hfull
      have hstart' : start ≤ candSec (day + 1) := by
        have := candSec_succ day; omega
      obtain ⟨hw0, hw7⟩ := hbnd _ hk
      obtain ⟨k', hk'6, hk'⟩ := exists_wd_step ((day + (k : Int)) % 7) (day + 1) hw0 hw7
      have hkmem' : ((day + 1 + (k' : Int)) % 7) ∈ wds := hk' ▸ hk
      by_cases hcond : start ≤ candSec day ∧ day % 7 ∈ wds
      · simp only [if_pos hcond]
        by_cases hin : candSec day ∈ occ
        · simp only [if_pos hin]
          have hdec := occCount_succ_lt day occ hin
          apply ih (day + 1) occ out k' hstart' hlen hkmem' hk'6
          omega
        · simp only [if_neg hin]
          have hle := occCount_succ_le day occ
          have hocc' : occCount (day + 1) (candSec day :: occ) = occCount (day + 1) occ := by
            unfold occCount
            have : decide (candSec (day + 1) ≤ candSec day) = false := by
              simp [candSec_succ day]
            simp [List.filter, this]
          apply ih (day + 1) (candSec day :: occ) (out ++ [candSec day]) k' hstart' _ hkmem' hk'6
          · rw [hocc']
            simp only [List.length_append, List.length_cons, List.length_nil]
            omega
          · simp only [List.length_append, List.length_cons, List.length_nil]
            omega
      · simp only [if_neg hcond]
        -- the current day is not a matching weekday, so the witness is ahead
        have hknz : k ≠ 0 := by
          intro h0
          subst h0
          simp at hk
          exact hcond ⟨hstart, hk⟩
        have hkmem2 : ((day + 1 + ((k - 1 : Nat) : Int)) % 7) ∈ wds := by
          have : (day + 1 + ((k - 1 : Nat) : Int)) = day + (k : Int) := by
            omega
          rw [this]; exact hk
        have hle := occCount_succ_le day occ
        apply ih (day + 1) occ out (k - 1) hstart' hlen hkmem2 (by omega)
        omega

/-- With enough fuel, the allocator returns `n` duplicate-free UTC instants,
each an 18:30 Taipei slot, not before the start, on a weekday of the type's
set, and outside the combined occupied set. -/
theorem allocNextFreeSlots_props (videoType : String) (rows : List VideoSchedule)
    (client : Bool) (fetch : Except String (List YtStatusItem))
    (startLocalSec : Int) (n fuel : Nat)
    (hfuel : 7 * (n + (dbOccupiedSlots rows ++
        ytReservedSlotsTpe client fetch (startLocalSec - tpeOffset)).length) + 8 ≤ fuel) :
    (allocNextFreeSlots videoType rows client fetch startLocalSec n fuel).length = n ∧
    (allocNextFreeSlots videoType rows client fetch startLocalSec n fuel).Nodup ∧
    ∀ u ∈ allocNextFreeSlots videoType rows client fetch startLocalSec n fuel,
      startLocalSec ≤ u + tpeOffset ∧
      (u + tpeOffset) % 86400 = 66600 ∧
      ((u + tpeOffset) / 86400) % 7 ∈ weekdaysFor videoType ∧
      (u + tpeOffset) ∉ dbOccupiedSlots rows ++
        ytReservedSlotsTpe client fetch (startLocalSec - tpeOffset) := by
  obtain ⟨⟨w, hw⟩, hbnd⟩ := weekdaysFor_wf videoType
  obtain ⟨hw0, hw7⟩ := hbnd w hw
  simp only [allocNextFreeSlots]
  set wds := weekdaysFor videoType with hwds
  set occ := dbOccupiedSlots rows ++
    ytReservedSlotsTpe client fetch (startLocalSec - tpeOffset) with hocc
  set d0 : Int := startLocalSec / 86400 with hd0
  have hcount := occCount_le_length d0 occ
  have hlen : (allocAux wds startLocalSec n fuel d0 occ []).length = n := by
    by_cases hpos : startLocalSec ≤ candSec d0
    · obtain ⟨k, hk6, hk⟩ := exists_wd_step w d0 hw0 hw7
      exact allocAux_length wds hbnd startLocalSec n fuel d0 occ [] k hpos (by simp)
        (hk ▸ hw) hk6 (by simp only [List.length_nil]; omega)
    · obtain ⟨f, rfl⟩ : ∃ f, fuel = f + 1 := ⟨fuel - 1, by omega⟩
      simp only [allocAux]
      by_cases hn : n = 0
      · rw [if_pos (by simp [hn])]
        simp [hn]
      · rw [if_neg (by simp; omega), if_neg (fun h => hpos h.1)]
        have hpos' : startLocalSec ≤ candSec (d0 + 1) := by
          rw [hd0]
          unfold candSec
          omega
        obtain ⟨k, hk6, hk⟩ := exists_wd_step w (d0 + 1) hw0 hw7
        have hcount' := occCount_le_length (d0 + 1) occ
        exact allocAux_length wds hbnd startLocalSec n f (d0 + 1) occ [] k hpos' (by simp)
          (hk ▸ hw) hk6 (by simp only [List.length_nil]; omega)
  obtain ⟨rnd, rmem⟩ := allocAux_invariant wds startLocalSec n occ fuel d0 occ []
    (fun x hx => hx) (by simp) List.nodup_nil
  refine ⟨by simpa using hlen, ?_, ?_⟩
  · exact rnd.map (fun a b hab => by omega)
  · intro u hu
    obtain ⟨t, ht, rfl⟩ := List.mem_map.mp hu
    rcases rmem t ht with h0 | ⟨h1, h2, h3, h4⟩
    · cases h0
    · have huoff : t - tpeOffset + tpeOffset = t := by omega
      rw [huoff]
      exact ⟨h1, h2, h3, h4⟩

/-- C1: for both video types and every requested count `n`, `_alloc_next_free_slots`
returns exactly `n` pairwise-distinct instants (given enough walking fuel for
the unbounded Python loop), each of which — read back in Asia/Taipei local
time — is the 18:30:00 wall-clock time of its day (second 66600, so seconds
and sub-seconds are zero), is not earlier than the allocation's start instant,
falls on Monday or Friday for `short` and on Wednesday for `long`, and differs
from every minute-rounded occupied slot, where the occupied set is the ledger
slots with status scheduled/uploaded together with the remote reserved slots;
pairwise distinctness also separates it from slots allocated earlier in the
same batch. -/
theorem alloc_next_free_slots_correct (videoType : String)
    (hvt : videoType = "short" ∨ videoType = "long")
    (rows : List VideoSchedule) (client : Bool)
    (fetch : Except String (List YtStatusItem)) (startLocalSec : Int) (n fuel : Nat)
    (hfuel : 7 * (n + (dbOccupiedSlots rows ++
        ytReservedSlotsTpe client fetch (startLocalSec - tpeOffset)).length) + 8 ≤ fuel) :
    (allocNextFreeSlots videoType rows client fetch startLocalSec n fuel).length = n ∧
    (allocNextFreeSlots videoType rows client fetch startLocalSec n fuel).Nodup ∧
    ∀ u ∈ allocNextFreeSlots videoType rows client fetch startLocalSec n fuel,
      startLocalSec ≤ u + tpeOffset ∧
      (u + tpeOffset) % 86400 = 66600 ∧
      (videoType = "short" →
        ((u + tpeOffset) / 86400) % 7 = 0 ∨ ((u + tpeOffset) / 86400) % 7 = 4) ∧
      (videoType = "long" → ((u + tpeOffset) / 86400) % 7 = 2) ∧
      (u + tpeOffset) ∉ dbOccupiedSlots rows ∧
      (u + tpeOffset) ∉ ytReservedSlotsTpe client fetch (startLocalSec - tpeOffset) := by
  obtain ⟨hlen, hnd, hmem⟩ := allocNextFreeSlots_props videoType rows client fetch
    startLocalSec n fuel hfuel
  refine ⟨hlen, hnd, fun u hu => ?_⟩
  obtain ⟨h1, h2, h3, h4⟩ := hmem u hu
  rw [List.mem_append] at h4
  refine ⟨h1, h2, ?_, ?_, fun hc => h4 (Or.inl hc), fun hc => h4 (Or.inr hc)⟩
  · intro hshort
    rw [hshort] at h3
    simpa [weekdaysFor] using h3
  · intro hlong
    rcases hvt with hvt | hvt
    · rw [hvt] at hlong
      simp at hlong
    · rw [hlong] at h3
      simpa [weekdaysFor] using h3

/-- Concrete run of `alloc_next_free_slots_correct`: one ledger slot occupies
Monday (day 0) and one remote reservation occupies Friday (day 4), so the
single allocated short slot lands on the following Monday. -/
theorem alloc_next_free_slots_correct_witness :
    (allocNextFreeSlots "short" [{ id := 1, scheduleTime := some 37800, status := "scheduled" }]
        true (Except.ok [{ privacyStatus := some "private", publishAt := some 383400 }])
        0 1 29).length = 1 ∧
    (allocNextFreeSlots "short" [{ id := 1, scheduleTime := some 37800, status := "scheduled" }]
        true (Except.ok [{ privacyStatus := some "private", publishAt := some 383400 }])
        0 1 29).Nodup ∧
    ∀ u ∈ allocNextFreeSlots "short"
        [{ id := 1, scheduleTime := some 37800, status := "scheduled" }]
        true (Except.ok [{ privacyStatus := some "private", publishAt := some 383400 }])
        0 1 29,
      (0 : Int) ≤ u + tpeOffset ∧
      (u + tpeOffset) % 86400 = 66600 ∧
      (("short" : String) = "short" →
        ((u + tpeOffset) / 86400) % 7 = 0 ∨ ((u + tpeOffset) / 86400) % 7 = 4) ∧
      (("short" : String) = "long" → ((u + tpeOffset) / 86400) % 7 = 2) ∧
      (u + tpeOffset) ∉ dbOccupiedSlots
        [{ id := 1, scheduleTime := some 37800, status := "scheduled" }] ∧
      (u + tpeOffset) ∉ ytReservedSlotsTpe true
        (Except.ok [{ privacyStatus := some "private", publishAt := some 383400 }])
        (0 - tpeOffset) :=
  alloc_next_free_slots_correct "short" (Or.inl rfl)
    [{ id := 1, scheduleTime := some 37800, status := "scheduled" }]
    true (Except.ok [{ privacyStatus := some "private", publishAt := some 383400 }])
    0 1 29 (by decide)

/-- C8: a failing remote-reservation query (unavailable client, or an
exception raised while listing) makes `_yt_reserved_slots_tpe` return the
empty set instead of raising, and slot allocation still returns the requested
number of pairwise-distinct slots, its exclusions then coming only from the
ledger (and same-batch distinctness). -/
theorem yt_reserved_slots_error_resilient (client : Bool) (e : String) (nowUtcSec : Int)
    (anyFetch : Except String (List YtStatusItem))
    (videoType : String) (rows : List VideoSchedule) (startLocalSec : Int) (n fuel : Nat)
    (hfuel : 7 * (n + (dbOccupiedSlots rows).length) + 8 ≤ fuel) :
    ytReservedSlotsTpe client (Except.error e) nowUtcSec = [] ∧
    ytReservedSlotsTpe false anyFetch nowUtcSec = [] ∧
    (allocNextFreeSlots videoType rows client (Except.error e) startLocalSec n fuel).length = n ∧
    (allocNextFreeSlots videoType rows client (Except.error e) startLocalSec n fuel).Nodup ∧
    ∀ u ∈ allocNextFreeSlots videoType rows client (Except.error e) startLocalSec n fuel,
      (u + tpeOffset) ∉ dbOccupiedSlots rows := by
  have hempty : ∀ now : Int, ytReservedSlotsTpe client (Except.error e) now = [] := by
    intro now
    cases client <;> rfl
  have hfuel' : 7 * (n + (dbOccupiedSlots rows ++
      ytReservedSlotsTpe client (Except.error e) (startLocalSec - tpeOffset)).length) + 8
        ≤ fuel := by
    rw [hempty, List.append_nil]
    exact hfuel
  obtain ⟨hlen, hnd, hmem⟩ := allocNextFreeSlots_props videoType rows client
    (Except.error e) startLocalSec n fuel hfuel'
  refine ⟨hempty nowUtcSec, rfl, hlen, hnd, fun u hu => ?_⟩
  obtain ⟨_, _, _, h4⟩ := hmem u hu
  rw [List.mem_append] at h4
  exact fun hc => h4 (Or.inl hc)

/-- Concrete run of `yt_reserved_slots_error_resilient`: the remote listing
raises, yet one long slot (Wednesday) is still allocated. -/
theorem yt_reserved_slots_error_resilient_witness :
    ytReservedSlotsTpe true (Except.error "invalid_grant") 0 = [] ∧
    ytReservedSlotsTpe false (Except.ok []) 0 = [] ∧
    (allocNextFreeSlots "long" [] true (Except.error "invalid_grant") 0 1 15).length = 1 ∧
    (allocNextFreeSlots "long" [] true (Except.error "invalid_grant") 0 1 15).Nodup ∧
    ∀ u ∈ allocNextFreeSlots "long" [] true (Except.error "invalid_grant") 0 1 15,
      (u + tpeOffset) ∉ dbOccupiedSlots [] :=
  yt_reserved_slots_error_resilient true "invalid_grant" 0 (Except.ok [])
    "long" [] 0 1 15 (by decide)

/-- C7: `insert_schedule_basic` for a folder that already has a record — in
particular one whose status is neither 'deleted' nor 'canceled' — returns 0
(no new record id), inserts no new row, and leaves every field of every
existing record unchanged; re-scanning an already-claimed folder therefore
schedules nothing new. -/
theorem insert_schedule_basic_noop (db : LedgerDb)
    (folderId folderName videoType : String) (t : Int) (mt : String)
    (r : VideoSchedule) (hr : r ∈ db.rows) (hfid : r.folderId = folderId)
    (hs1 : r.status ≠ "deleted") (hs2 : r.status ≠ "canceled") :
    insert_schedule_basic db folderId folderName videoType t mt = (0, db) := by
  unfold insert_schedule_basic
  rw [if_pos]
  exact List.any_eq_true.mpr ⟨r, hr, by simp [hfid]⟩

/-- Concrete run of `insert_schedule_basic_noop` against a table holding one
uploaded record for the folder. -/
theorem insert_schedule_basic_noop_witness :
    insert_schedule_basic
      { rows := [{ id := 1, folderId := "fA", status := "uploaded" }], nextId := 2 }
      "fA" "name2" "short" 0 "" =
    (0, { rows := [{ id := 1, folderId := "fA", status := "uploaded" }], nextId := 2 }) :=
  insert_schedule_basic_noop
    { rows := [{ id := 1, folderId := "fA", status := "uploaded" }], nextId := 2 }
    "fA" "name2" "short" 0 ""
    { id := 1, folderId := "fA", status := "uploaded" }
    (by decide) rfl (by decide) (by decide)

/-- C3 as stated fails on the code: the upsert `insert_schedule`, hitting the
folder-id conflict branch, moves a record whose status is 'published'
straight back to 'scheduled'. -/
theorem published_reenters_scheduled_cex :
    ((insert_schedule
        { rows := [{ id := 1, folderId := "f1", status := "published" }], nextId := 2 }
        none "f1" "n" "long" none "" 0).2.rows.map VideoSchedule.status) = ["scheduled"] ∧
    ([{ id := 1, folderId := "f1", status := "published" }] : List VideoSchedule).map
      VideoSchedule.status = ["published"] :=
  ⟨rfl, rfl⟩

theorem dictInsert_forall {Q : VideoSchedule → Prop}
    {m : List (String × VideoSchedule)} {k : String} {v : VideoSchedule}
    (hm : ∀ p ∈ m, Q p.2) (hv : Q v) :
    ∀ p ∈ dictInsert m k v, Q p.2 := by
  intro p hp
  unfold dictInsert at hp
  split at hp
  · obtain ⟨q, hq, heq⟩ := List.mem_map.mp hp
    by_cases hqk : q.1 = k
    · rw [if_pos hqk] at heq
      rw [← heq]
      exact hv
    · rw [if_neg hqk] at heq
      rw [← heq]
      exact hm q hq
  · rcases List.mem_append.mp hp with hp' | hp'
    · exact hm p hp'
    · simp at hp'
      rw [hp']
      exact hv

theorem buildIdMap_forall {Q : VideoSchedule → Prop} :
    ∀ (rs : List VideoSchedule) (m0 : List (String × VideoSchedule)),
      (∀ p ∈ m0, Q p.2) → (∀ r ∈ rs, Q r) →
      ∀ p ∈ rs.foldl (fun m r =>
        match r.youtubeVideoId with
        | some v => if v = "" then m else dictInsert m v r
        | none => m) m0, Q p.2 := by
  intro rs
  induction rs with
  | nil => intro m0 hm _ p hp; exact hm p hp
  | cons r t ih =>
    intro m0 hm hrs p hp
    simp only [List.foldl] at hp
    have hQr : Q r := hrs r (List.mem_cons_self r t)
    have hrs' : ∀ x ∈ t, Q x := fun x hx => hrs x (List.mem_cons_of_mem r hx)
    have hstep : ∀ q ∈ (match r.youtubeVideoId with
        | some v => if v = "" then m0 else dictInsert m0 v r
        | none => m0), Q q.2 := by
      rcases hv : r.youtubeVideoId with _ | v
      · simpa using hm
      · simp only [hv]
        by_cases hve : v = ""
        · rw [if_pos hve]
          exact hm
        · rw [if_neg hve]
          exact dictInsert_forall hm hQr
    exact ih _ hstep hrs' p hp

theorem buildIdMap_mem (rs : List VideoSchedule) :
    ∀ p ∈ buildIdMap rs, p.2 ∈ rs := by
  unfold buildIdMap
  exact buildIdMap_forall rs [] (by simp) (fun r hr => hr)

theorem driftCandidates_mem (rows : List VideoSchedule) (nowSec : Int) :
    ∀ r ∈ driftCandidates rows nowSec,
      r ∈ rows ∧ (r.status = "uploaded" ∨ r.status = "scheduled" ∨ r.status = "deleted") := by
  intro r hr
  unfold driftCandidates at hr
  have h1 := List.take_subset _ _ hr
  rw [List.mem_insertionSort] at h1
  have h2 := List.mem_filter.mp h1
  refine ⟨h2.1, ?_⟩
  have h3 := of_decide_eq_true h2.2
  exact h3.2.1

theorem driftEntryRows_preserve (m : YtMeta) (r : VideoSchedule)
    (rows : List VideoSchedule) (i : Nat) (cur : VideoSchedule)
    (h : rows[i]? = some cur) (hid : cur.id ≠ r.id) :
    (driftEntryRows m r rows)[i]? = some cur := by
  have hsched : ∀ (rs : List VideoSchedule) (t : Int),
      rs[i]? = some cur → (driftUpdSched rs r.id t)[i]? = some cur := by
    intro rs t hrs
    unfold driftUpdSched
    rw [List.getElem?_map, hrs]
    simp [hid]
  have hstat : ∀ (rs : List VideoSchedule) (s : String),
      rs[i]? = some cur → (driftUpdStatus rs r.id s)[i]? = some cur := by
    intro rs s hrs
    unfold driftUpdStatus
    rw [List.getElem?_map, hrs]
    simp [hid]
  unfold driftEntryRows
  rcases hpa : m.publishAt with _ | apiDt <;>
    simp only [hpa] <;>
    split_ifs <;>
    first
      | exact h
      | exact hstat _ _ h
      | exact hsched _ _ h
      | exact hstat _ _ (hstat _ _ h)
      | exact hstat _ _ (hsched _ _ h)
      | exact hstat _ _ (hstat _ _ (hsched _ _ h))

theorem drift_fold_preserve (meta : List (String × YtMeta))
    (moveOracle : String → Except String String) (sheetOracle : Nat → Except String Unit) :
    ∀ (entries : List (String × VideoSchedule)) (acc : DriftOut × List VideoSchedule)
      (i : Nat) (cur : VideoSchedule),
      (∀ e ∈ entries, e.2.id ≠ cur.id) →
      acc.2[i]? = some cur →
      ((entries.foldl (fun acc entry =>
          match lookupAssoc meta entry.1 with
          | none => acc
          | some m => (driftEntryOut m entry.2 moveOracle sheetOracle acc.1,
                       driftEntryRows m entry.2 acc.2)) acc).2)[i]? = some cur := by
  intro entries
  induction entries with
  | nil => intro acc i cur _ hacc; simpa using hacc
  | cons e t ih =>
    intro acc i cur hne hacc
    simp only [List.foldl]
    apply ih _ i cur (fun q hq => hne q (List.mem_cons_of_mem e hq))
    rcases hml : lookupAssoc meta e.1 with _ | m
    · simpa [hml] using hacc
    · simp only [hml]
      exact driftEntryRows_preserve m e.2 acc.2 i cur hacc
        (Ne.symm (hne e (List.mem_cons_self e t)))

/-- C3 (amended): the drift-reconciliation update never moves a record whose
status is 'published' to 'scheduled': its candidate SELECT only returns
uploaded/scheduled/deleted rows and every ledger update of the pass targets
the id of such a row, so (with distinct record ids) a published record's
status is untouched.  The upsert `insert_schedule`, by contrast, forces
'scheduled' on the conflicting folder's record regardless of its prior status
— including 'published' — and the drift update can return an 'uploaded'
record to 'scheduled', so 'scheduled' can be re-entered in general. -/
theorem drift_preserves_published (db : LedgerDb) (nowSec : Int)
    (metaFetch : Except String (List (String × YtMeta)))
    (moveOracle : String → Except String String) (sheetOracle : Nat → Except String Unit)
    (hids : (db.rows.map VideoSchedule.id).Nodup)
    (i : Nat) (cur : VideoSchedule) (hcur : db.rows[i]? = some cur)
    (hpub : cur.status = "published") :
    ∃ cur', (reconcile_drift_core db nowSec metaFetch moveOracle sheetOracle).2.rows[i]? =
      some cur' ∧ cur'.status = "published" := by
  have hmem : cur ∈ db.rows := List.getElem?_mem hcur
  have hne : ∀ e ∈ buildIdMap (driftCandidates db.rows nowSec), e.2.id ≠ cur.id := by
    intro e he hc
    have h2 := buildIdMap_mem _ e he
    obtain ⟨hmem2, hst⟩ := driftCandidates_mem db.rows nowSec _ h2
    have heq : e.2 = cur := List.inj_on_of_nodup_map hids hmem2 hmem hc
    rw [heq, hpub] at hst
    simp at hst
  simp only [reconcile_drift_core]
  by_cases hempty : buildIdMap (driftCandidates db.rows nowSec) = []
  · rw [if_pos hempty]
    exact ⟨cur, hcur, hpub⟩
  · rw [if_neg hempty]
    rcases metaFetch with e | meta
    · exact ⟨cur, hcur, hpub⟩
    · exact ⟨cur, drift_fold_preserve meta moveOracle sheetOracle _ _ i cur hne hcur, hpub⟩

/-- Concrete run of `drift_preserves_published`: a published record survives a
drift pass untouched. -/
theorem drift_preserves_published_witness :
    ∃ cur', (reconcile_drift_core
        { rows := [{ id := 1, folderId := "f", status := "published",
                     youtubeVideoId := some "v" }], nextId := 2 }
        0 (Except.ok []) (fun _ => Except.ok "") (fun _ => Except.ok ())).2.rows[0]? =
      some cur' ∧ cur'.status = "published" :=
  drift_preserves_published
    { rows := [{ id := 1, folderId := "f", status := "published",
                 youtubeVideoId := some "v" }], nextId := 2 }
    0 (Except.ok []) (fun _ => Except.ok "") (fun _ => Except.ok ())
    (by decide) 0
    { id := 1, folderId := "f", status := "published", youtubeVideoId := some "v" }
    rfl rfl

/-- C4: every invocation of `reconcile_youtube_schedule_drift` evaluates the
unconditional debug print `print(json.dumps(meta, …))` with the local `meta`
still unassigned, so every call raises UnboundLocalError (a NameError) before
the candidate SELECT, before any ledger mutation and before any sheet write —
the erroneous return carries no result state at all. -/
theorem reconcile_drift_always_raises (db : LedgerDb) (nowSec : Int)
    (metaFetch : Except String (List (String × YtMeta)))
    (moveOracle : String → Except String String)
    (sheetOracle : Nat → Except String Unit) :
    reconcile_youtube_schedule_drift db nowSec metaFetch moveOracle sheetOracle =
      Except.error "UnboundLocalError: local variable meta referenced before assignment" :=
  rfl

theorem keepRowsAux_nil {α : Type} : ∀ (i : Nat) (l : List α), keepRowsAux [] i l = l := by
  intro i l
  induction l generalizing i with
  | nil => rfl
  | cons a t ih => simp [keepRowsAux, ih]

theorem keepRowsAux_all_lt {α : Type} (bad : List Nat) :
    ∀ (l : List α) (i : Nat), (∀ y ∈ bad, y < i) → keepRowsAux bad i l = l := by
  intro l
  induction l with
  | nil => intro i _; rfl
  | cons a t ih =>
    intro i hlt
    have hni : i ∉ bad := fun h => absurd (hlt i h) (lt_irrefl i)
    show (if i ∈ bad then [] else [a]) ++ keepRowsAux bad (i + 1) t = a :: t
    rw [if_neg hni, List.singleton_append,
      ih (i + 1) (fun y hy => Nat.lt_succ_of_lt (hlt y hy))]

theorem keepRowsAux_congr {α : Type} {b1 b2 : List Nat} (h : ∀ i, i ∈ b1 ↔ i ∈ b2) :
    ∀ (l : List α) (i : Nat), keepRowsAux b1 i l = keepRowsAux b2 i l := by
  intro l
  induction l with
  | nil => intro i; rfl
  | cons a t ih =>
    intro i
    by_cases hi : i ∈ b1
    · simp [keepRowsAux, hi, (h i).mp hi, ih]
    · have hi2 : i ∉ b2 := fun hh => hi ((h i).mpr hh)
      simp [keepRowsAux, hi, hi2, ih]

theorem keep_erase {α : Type} (x : Nat) (xs : List Nat) (hxs : ∀ y ∈ xs, y < x) :
    ∀ (sheet : List α) (i : Nat), 1 ≤ i → i ≤ x →
      keepRowsAux xs i (sheet.take (x - i) ++ sheet.drop (x - i + 1)) =
        keepRowsAux (x :: xs) i sheet := by
  intro sheet
  induction sheet with
  | nil =>
    intro i _ _
    simp [keepRowsAux]
  | cons a rest ih =>
    intro i h1 hix
    by_cases hlt : i < x
    · have hxi : x - i = (x - (i + 1)) + 1 := by omega
      have hmem : (i ∈ x :: xs) ↔ (i ∈ xs) := by
        constructor
        · intro hh
          rcases List.mem_cons.mp hh with rfl | hh
          · omega
          · exact hh
        · exact List.mem_cons_of_mem x
      have e1 : (a :: rest).take (x - i) = a :: rest.take (x - (i + 1)) := by
        rw [hxi, List.take_succ_cons]
      have e2 : (a :: rest).drop (x - i + 1) = rest.drop (x - (i + 1) + 1) := by
        rw [hxi, List.drop_succ_cons]
      rw [e1, e2]
      show (if i ∈ xs then [] else [a]) ++
          keepRowsAux xs (i + 1) (rest.take (x - (i + 1)) ++ rest.drop (x - (i + 1) + 1)) =
        (if i ∈ x :: xs then [] else [a]) ++ keepRowsAux (x :: xs) (i + 1) rest
      rw [ih (i + 1) (by omega) (by omega)]
      by_cases hi : i ∈ xs
      · rw [if_pos hi, if_pos (hmem.mpr hi)]
      · rw [if_neg hi, if_neg (fun hh => hi (hmem.mp hh))]
    · have hieq : i = x := by omega
      subst hieq
      have e3 : (a :: rest).take (i - i) ++ (a :: rest).drop (i - i + 1) = rest := by
        rw [Nat.sub_self]
        simp
      rw [e3]
      have hR : keepRowsAux (i :: xs) i (a :: rest) = keepRowsAux (i :: xs) (i + 1) rest := by
        show (if i ∈ i :: xs then [] else [a]) ++ keepRowsAux (i :: xs) (i + 1) rest =
          keepRowsAux (i :: xs) (i + 1) rest
        rw [if_pos (List.mem_cons_self i xs), List.nil_append]
      rw [hR, keepRowsAux_all_lt xs rest i (fun y hy => hxs y hy),
        keepRowsAux_all_lt (i :: xs) rest (i + 1)]
      intro y hy
      rcases List.mem_cons.mp hy with rfl | hy
      · omega
      · have := hxs y hy
        omega

theorem applyDelete_desc {α : Type} :
    ∀ (bad : List Nat), bad.Sorted (fun a b => a > b) → (∀ y ∈ bad, 1 ≤ y) →
      ∀ (sheet : List α),
        applyDeleteRequests sheet (bad.map (fun idx => (idx - 1, idx))) =
          keepRows sheet bad := by
  intro bad
  induction bad with
  | nil =>
    intro _ _ sheet
    simp [applyDeleteRequests, keepRows, keepRowsAux_nil]
  | cons x xs ih =>
    intro hs h1 sheet
    obtain ⟨hgt, hs'⟩ := List.sorted_cons.mp hs
    have hx1 : 1 ≤ x := h1 x (List.mem_cons_self x xs)
    simp only [List.map, applyDeleteRequests, List.foldl]
    have hstep := ih hs' (fun y hy => h1 y (List.mem_cons_of_mem x hy))
      (sheet.take (x - 1) ++ sheet.drop x)
    simp only [applyDeleteRequests] at hstep
    rw [hstep]
    unfold keepRows
    have hdx : sheet.drop x = sheet.drop (x - 1 + 1) := by
      congr 1
      omega
    rw [hdx]
    exact keep_erase x xs hgt sheet 1 le_rfl hx1

/-- C10: `delete_rows` issues its deleteDimension requests sorted in strictly
descending row order inside one batch, so each request's index refers to the
sheet numbering as it stood before any deletion of the batch took effect, and
exactly the originally numbered rows are removed. -/
theorem delete_rows_spec {α : Type} (sheet : List α) (idxs : List Nat)
    (hnd : idxs.Nodup) (h1 : ∀ i ∈ idxs, 1 ≤ i) :
    (sortDesc idxs).Sorted (fun a b => a > b) ∧
    applyDeleteRequests sheet (deleteRowsRequests idxs) = keepRows sheet idxs := by
  have hperm : List.Perm (sortDesc idxs) idxs := List.perm_insertionSort _ idxs
  have hsorted : (sortDesc idxs).Sorted (· ≥ ·) := List.sorted_insertionSort _ idxs
  have hnd' : (sortDesc idxs).Nodup := hperm.nodup_iff.mpr hnd
  have hgt : (sortDesc idxs).Sorted (fun a b => a > b) :=
    (hsorted.and hnd').imp (fun hab => lt_of_le_of_ne hab.1.le (fun h => hab.2 h.symm))
  refine ⟨hgt, ?_⟩
  unfold deleteRowsRequests
  rw [applyDelete_desc (sortDesc idxs) hgt
    (fun y hy => h1 y (hperm.mem_iff.mp hy)) sheet]
  unfold keepRows
  exact keepRowsAux_congr (fun i => hperm.mem_iff) sheet 1

/-- Concrete run of `delete_rows_spec`: deleting rows 2 and 4 from a
five-row sheet removes exactly the original rows 2 and 4. -/
theorem delete_rows_spec_witness :
    (sortDesc [2, 4]).Sorted (fun a b => a > b) ∧
    applyDeleteRequests ["r1", "r2", "r3", "r4", "r5"] (deleteRowsRequests [2, 4]) =
      keepRows ["r1", "r2", "r3", "r4", "r5"] [2, 4] :=
  delete_rows_spec ["r1", "r2", "r3", "r4", "r5"] [2, 4] (by decide) (by decide)

theorem scanColAux_sound (p : String → Bool) :
    ∀ (col : List String) (i j : Nat), scanColAux p i col = some j →
      2 ≤ j ∧ ∃ k, k < col.length ∧ j = i + k ∧ p (col.getD k "") = true := by
  intro col
  induction col with
  | nil => intro i j h; cases h
  | cons c rest ih =>
    intro i j h
    by_cases hc : 2 ≤ i ∧ p c = true
    · rw [show scanColAux p i (c :: rest) =
          (if 2 ≤ i ∧ p c = true then some i else scanColAux p (i + 1) rest) from rfl,
        if_pos hc] at h
      cases h
      exact ⟨hc.1, 0, by simp, by omega, hc.2⟩
    · rw [show scanColAux p i (c :: rest) =
          (if 2 ≤ i ∧ p c = true then some i else scanColAux p (i + 1) rest) from rfl,
        if_neg hc] at h
      obtain ⟨h2, k, hk, hjk, hp⟩ := ih (i + 1) j h
      exact ⟨h2, k + 1, by simpa using hk, by omega, hp⟩

theorem scanColAux_complete (p : String → Bool) :
    ∀ (col : List String) (i : Nat),
      (∃ k, k < col.length ∧ 2 ≤ i + k ∧ p (col.getD k "") = true) →
      ∃ j, scanColAux p i col = some j := by
  intro col
  induction col with
  | nil =>
    intro i h
    obtain ⟨k, hk, _, _⟩ := h
    simp at hk
  | cons c rest ih =>
    intro i h
    obtain ⟨k, hk, h2, hp⟩ := h
    by_cases hc : 2 ≤ i ∧ p c = true
    · exact ⟨i, by
        rw [show scanColAux p i (c :: rest) =
            (if 2 ≤ i ∧ p c = true then some i else scanColAux p (i + 1) rest) from rfl,
          if_pos hc]⟩
    · have hrec : ∃ j, scanColAux p (i + 1) rest = some j := by
        apply ih
        match k, hk, h2, hp with
        | 0, hk, h2, hp => exact absurd ⟨by omega, hp⟩ hc
        | k + 1, hk, h2, hp => exact ⟨k, by simpa using hk, by omega, hp⟩
      obtain ⟨j, hj⟩ := hrec
      exact ⟨j, by
        rw [show scanColAux p i (c :: rest) =
            (if 2 ≤ i ∧ p c = true then some i else scanColAux p (i + 1) rest) from rfl,
          if_neg hc]
        exact hj⟩

theorem containsStr_blank (pat : String) (hp : pat ≠ "") : containsStr "" pat = false := by
  have hne : pat.data ≠ [] := by
    intro h
    apply hp
    cases pat
    simp_all
  unfold containsStr isSubChars
  simp [List.isEmpty_iff, String.toList, hne]

theorem find_row_by_youtube_id_finds (cols : SheetCols) (yid : String) (hy : yid ≠ "")
    (hex : (∃ k, 1 ≤ k ∧ containsStr (cols.yt.getD k "") yid = true) ∨
      (∃ idCol, cols.ytid = some idCol ∧ ∃ k, 1 ≤ k ∧ pyStrip (idCol.getD k "") = yid)) :
    ∃ j, find_row_by_youtube_id cols yid = some j ∧ 2 ≤ j ∧
      (containsStr (cols.yt.getD (j - 1) "") yid = true ∨
        ∃ idCol, cols.ytid = some idCol ∧ pyStrip (idCol.getD (j - 1) "") = yid) := by
  cases hscan : scanCol (fun cell => if cell = "" then false else containsStr cell yid)
      cols.yt with
  | some j =>
    obtain ⟨h2, k, hk, hjk, hp⟩ := scanColAux_sound _ cols.yt 1 j hscan
    have hcell : containsStr (cols.yt.getD k "") yid = true := by
      by_cases hce : cols.yt.getD k "" = ""
      · rw [if_pos hce] at hp
        cases hp
      · rwa [if_neg hce] at hp
    refine ⟨j, ?_, h2, Or.inl (by rw [show j - 1 = k by omega]; exact hcell)⟩
    unfold find_row_by_youtube_id
    rw [if_neg hy, hscan]
  | none =>
    rcases hex with ⟨k, hk1, hkc⟩ | ⟨idCol, hcol, k, hk1, hkc⟩
    · exfalso
      have hklen : k < cols.yt.length := by
        by_contra hge
        rw [List.getD_eq_default _ _ (by omega)] at hkc
        rw [containsStr_blank yid hy] at hkc
        cases hkc
      have hce : cols.yt.getD k "" ≠ "" := by
        intro hce
        rw [hce, containsStr_blank yid hy] at hkc
        cases hkc
      have hcompl := scanColAux_complete
        (fun cell => if cell = "" then false else containsStr cell yid) cols.yt 1
        ⟨k, hklen, by omega, by
          show (if cols.yt.getD k "" = "" then false
            else containsStr (cols.yt.getD k "") yid) = true
          rw [if_neg hce]
          exact hkc⟩
      obtain ⟨j, hj⟩ := hcompl
      rw [show scanColAux (fun cell => if cell = "" then false else containsStr cell yid)
        1 cols.yt = scanCol (fun cell => if cell = "" then false else containsStr cell yid)
        cols.yt from rfl, hscan] at hj
      cases hj
    · have hklen : k < idCol.length := by
        by_contra hge
        rw [List.getD_eq_default _ _ (by omega)] at hkc
        refine hy ?_
        rw [← hkc]
        decide
      have hcompl := scanColAux_complete (fun cell => decide (pyStrip cell = yid)) idCol 1
        ⟨k, hklen, by omega, by
          show decide (pyStrip (idCol.getD k "") = yid) = true
          exact decide_eq_true hkc⟩
      obtain ⟨j, hj⟩ := hcompl
      obtain ⟨h2, k', hk', hjk', hp'⟩ := scanColAux_sound _ idCol 1 j hj
      refine ⟨j, ?_, h2, Or.inr ⟨idCol, hcol, by
        rw [show j - 1 = k' by omega]
        exact of_decide_eq_true hp'⟩⟩
      unfold find_row_by_youtube_id
      rw [if_neg hy, hscan, hcol]
      exact hj

/-- C5: if some data row's YT-link cell contains the (nonempty) id, or the
configured pure-id column holds a cell whose strip equals it, then
`resolve_sheet_row` returns such a row — regardless of any supplied hint row
pointing elsewhere and before the folder-link, verified-hint, title+date and
unverified-hint strategies get a say (resolution by id runs first). -/
theorem resolve_sheet_row_id_wins (cols : SheetCols) (yid : String) (hy : yid ≠ "")
    (hex : (∃ k, 1 ≤ k ∧ containsStr (cols.yt.getD k "") yid = true) ∨
      (∃ idCol, cols.ytid = some idCol ∧ ∃ k, 1 ≤ k ∧ pyStrip (idCol.getD k "") = yid))
    (hintRow : Option Nat) (expectTitle expectDateStr folderUrl : Option String) :
    ∃ j, resolve_sheet_row cols hintRow expectTitle expectDateStr (some yid) folderUrl =
        some j ∧ 2 ≤ j ∧
      (containsStr (cols.yt.getD (j - 1) "") yid = true ∨
        ∃ idCol, cols.ytid = some idCol ∧ pyStrip (idCol.getD (j - 1) "") = yid) := by
  obtain ⟨j, hfind, h2, hprop⟩ := find_row_by_youtube_id_finds cols yid hy hex
  refine ⟨j, ?_, h2, hprop⟩
  unfold resolve_sheet_row
  simp only [Option.getD_some]
  rw [hfind]

/-- Concrete run of `resolve_sheet_row_id_wins`: the id sits in YT-link cell
of row 3; a stale hint pointing at row 2 and a matching decoy title there do
not win. -/
theorem resolve_sheet_row_id_wins_witness :
    ∃ j, resolve_sheet_row
          { dates := ["date", "2024-01-01 18:30", "2024-01-02 18:30"],
            titles := ["title", "decoy", "target"],
            yt := ["link", "", "https://youtu.be/dQw4w9WgXcQ"],
            folder := ["folder", "", ""], ytid := none }
          (some 2) (some "decoy") (some "2024-01-01 18:30") (some "dQw4w9WgXcQ") none =
        some j ∧ 2 ≤ j ∧
      (containsStr (["link", "", "https://youtu.be/dQw4w9WgXcQ"].getD (j - 1) "")
            "dQw4w9WgXcQ" = true ∨
        ∃ idCol, ({ dates := ["date", "2024-01-01 18:30", "2024-01-02 18:30"],
                    titles := ["title", "decoy", "target"],
                    yt := ["link", "", "https://youtu.be/dQw4w9WgXcQ"],
                    folder := ["folder", "", ""], ytid := none } : SheetCols).ytid =
            some idCol ∧ pyStrip (idCol.getD (j - 1) "") = "dQw4w9WgXcQ") :=
  resolve_sheet_row_id_wins
    { dates := ["date", "2024-01-01 18:30", "2024-01-02 18:30"],
      titles := ["title", "decoy", "target"],
      yt := ["link", "", "https://youtu.be/dQw4w9WgXcQ"],
      folder := ["folder", "", ""], ytid := none }
    "dQw4w9WgXcQ" (by decide) (Or.inl ⟨2, by decide, by decide⟩)
    (some 2) (some "decoy") (some "2024-01-01 18:30") none

theorem titleCandsAux_mem (titles dates : List String) (t : String) :
    ∀ (k i : Nat) (p : Nat × String), p ∈ titleCandsAux titles dates t i k →
      i ≤ p.1 ∧ p.1 < i + k ∧ titles.getD (p.1 - 1) "" = t ∧
        p.2 = dates.getD (p.1 - 1) "" := by
  intro k
  induction k with
  | zero => intro i p hp; cases hp
  | succ k ih =>
    intro i p hp
    rw [show titleCandsAux titles dates t i (k + 1) =
        (if titles.getD (i - 1) "" = t then [(i, dates.getD (i - 1) "")] else []) ++
          titleCandsAux titles dates t (i + 1) k from rfl] at hp
    rcases List.mem_append.mp hp with hp | hp
    · by_cases hti : titles.getD (i - 1) "" = t
      · rw [if_pos hti] at hp
        simp only [List.mem_singleton] at hp
        subst hp
        exact ⟨le_rfl, by omega, hti, rfl⟩
      · rw [if_neg hti] at hp
        cases hp
    · obtain ⟨h1, h2, h3, h4⟩ := ih (i + 1) p hp
      exact ⟨by omega, by omega, h3, h4⟩

theorem titleCands_find_date (titles dates : List String) (t d : String) :
    ∀ (k i : Nat),
      (∃ j, i ≤ j ∧ j < i + k ∧ titles.getD (j - 1) "" = t ∧ dates.getD (j - 1) "" = d) →
      ∃ p : Nat × String,
        (titleCandsAux titles dates t i k).find? (fun q => decide (q.2 = d)) = some p ∧
        i ≤ p.1 ∧ titles.getD (p.1 - 1) "" = t ∧ dates.getD (p.1 - 1) "" = d ∧
        ∀ j, i ≤ j → j < i + k → titles.getD (j - 1) "" = t →
          dates.getD (j - 1) "" = d → p.1 ≤ j := by
  intro k
  induction k with
  | zero =>
    intro i h
    obtain ⟨j, h1, h2, _, _⟩ := h
    omega
  | succ k ih =>
    intro i h
    obtain ⟨j, hij, hjk, hTj, hDj⟩ := h
    rw [show titleCandsAux titles dates t i (k + 1) =
        (if titles.getD (i - 1) "" = t then [(i, dates.getD (i - 1) "")] else []) ++
          titleCandsAux titles dates t (i + 1) k from rfl]
    by_cases hti : titles.getD (i - 1) "" = t
    · rw [if_pos hti]
      by_cases hdi : dates.getD (i - 1) "" = d
      · refine ⟨(i, dates.getD (i - 1) ""), ?_, le_rfl, hti, hdi,
          fun j' hij' _ _ _ => hij'⟩
        rw [List.singleton_append]
        revert hdi
        generalize dates.getD (i - 1) "" = cellD
        intro hdi
        subst hdi
        simp [List.find?_cons]
      · have hji : j ≠ i := by
          intro h
          rw [h] at hDj
          exact hdi hDj
        obtain ⟨p, hfind, hp1, hp2, hp3, hmin⟩ :=
          ih (i + 1) ⟨j, by omega, by omega, hTj, hDj⟩
        refine ⟨p, ?_, by omega, hp2, hp3, ?_⟩
        · rw [List.singleton_append]
          revert hdi
          generalize dates.getD (i - 1) "" = cellD
          intro hdi
          simp only [List.find?_cons, hdi, decide_False]
          exact hfind
        · intro j' h1 h2 h3 h4
          have hne : j' ≠ i := by
            intro h
            rw [h] at h4
            exact hdi h4
          exact hmin j' (by omega) (by omega) h3 h4
    · have hji : j ≠ i := by
        intro h
        rw [h] at hTj
        exact hti hTj
      obtain ⟨p, hfind, hp1, hp2, hp3, hmin⟩ :=
        ih (i + 1) ⟨j, by omega, by omega, hTj, hDj⟩
      refine ⟨p, ?_, by omega, hp2, hp3, ?_⟩
      · rw [if_neg hti, List.nil_append]
        exact hfind
      · intro j' h1 h2 h3 h4
        have hne : j' ≠ i := by
          intro h
          rw [h] at h3
          exact hti h3
        exact hmin j' (by omega) (by omega) h3 h4

theorem titleCands_first_title (titles dates : List String) (t : String) :
    ∀ (k i : Nat),
      (∃ j, i ≤ j ∧ j < i + k ∧ titles.getD (j - 1) "" = t) →
      ∃ p : Nat × String, (titleCandsAux titles dates t i k).head? = some p ∧
        i ≤ p.1 ∧ titles.getD (p.1 - 1) "" = t ∧ p.2 = dates.getD (p.1 - 1) "" ∧
        ∀ j, i ≤ j → j < i + k → titles.getD (j - 1) "" = t → p.1 ≤ j := by
  intro k
  induction k with
  | zero =>
    intro i h
    obtain ⟨j, h1, h2, _⟩ := h
    omega
  | succ k ih =>
    intro i h
    obtain ⟨j, hij, hjk, hTj⟩ := h
    rw [show titleCandsAux titles dates t i (k + 1) =
        (if titles.getD (i - 1) "" = t then [(i, dates.getD (i - 1) "")] else []) ++
          titleCandsAux titles dates t (i + 1) k from rfl]
    by_cases hti : titles.getD (i - 1) "" = t
    · rw [if_pos hti]
      exact ⟨(i, dates.getD (i - 1) ""), rfl, le_rfl, hti, rfl,
        fun j' hij' _ _ => hij'⟩
    · have hji : j ≠ i := by
        intro h
        rw [h] at hTj
        exact hti hTj
      obtain ⟨p, hhead, hp1, hp2, hp3, hmin⟩ :=
        ih (i + 1) ⟨j, by omega, by omega, hTj⟩
      refine ⟨p, ?_, by omega, hp2, hp3, ?_⟩
      · rw [if_neg hti, List.nil_append]
        exact hhead
      · intro j' h1 h2 h3
        have hne : j' ≠ i := by
          intro h
          rw [h] at h3
          exact hti h3
        exact hmin j' (by omega) (by omega) h3

theorem titleCands_none (titles dates : List String) (t : String) :
    ∀ (k i : Nat), (∀ j, i ≤ j → j < i + k → titles.getD (j - 1) "" ≠ t) →
      titleCandsAux titles dates t i k = [] := by
  intro k
  induction k with
  | zero => intro i _; rfl
  | succ k ih =>
    intro i hno
    rw [show titleCandsAux titles dates t i (k + 1) =
        (if titles.getD (i - 1) "" = t then [(i, dates.getD (i - 1) "")] else []) ++
          titleCandsAux titles dates t (i + 1) k from rfl]
    rw [if_neg (hno i le_rfl (by omega)), List.nil_append]
    exact ih (i + 1) (fun j h1 h2 => hno j (by omega) (by omega))

/-- C6: with no id match, no folder-link match and no hint row,
`resolve_sheet_row` with a nonempty expected title and an expected date
string returns the lowest-indexed data row whose title and date cells both
match; when no same-title candidate's date matches, the lowest-indexed row
whose title matches; and no row at all when no title matches. -/
theorem resolve_sheet_row_title_date (cols : SheetCols)
    (youtubeId folderUrl : Option String) (t d : String) (ht : t ≠ "")
    (hidn : find_row_by_youtube_id cols (youtubeId.getD "") = none)
    (hfn : find_row_by_folder_url cols (folderUrl.getD "") = none) :
    ((∃ j, 2 ≤ j ∧ cols.titles.getD (j - 1) "" = t ∧ cols.dates.getD (j - 1) "" = d) →
      ∃ r, resolve_sheet_row cols none (some t) (some d) youtubeId folderUrl = some r ∧
        2 ≤ r ∧ cols.titles.getD (r - 1) "" = t ∧ cols.dates.getD (r - 1) "" = d ∧
        ∀ j, 2 ≤ j → cols.titles.getD (j - 1) "" = t →
          cols.dates.getD (j - 1) "" = d → r ≤ j) ∧
    ((∀ j, 2 ≤ j → cols.titles.getD (j - 1) "" = t → cols.dates.getD (j - 1) "" ≠ d) →
      (∃ j, 2 ≤ j ∧ cols.titles.getD (j - 1) "" = t) →
      ∃ r, resolve_sheet_row cols none (some t) (some d) youtubeId folderUrl = some r ∧
        2 ≤ r ∧ cols.titles.getD (r - 1) "" = t ∧
        ∀ j, 2 ≤ j → cols.titles.getD (j - 1) "" = t → r ≤ j) ∧
    ((∀ j, 2 ≤ j → cols.titles.getD (j - 1) "" ≠ t) →
      resolve_sheet_row cols none (some t) (some d) youtubeId folderUrl = none) := by
  have hres : resolve_sheet_row cols none (some t) (some d) youtubeId folderUrl =
      find_row_by_title_and_date cols.titles cols.dates t d := by
    unfold resolve_sheet_row
    rw [hidn, hfn]
    simp only [Option.getD_some, if_pos ht]
    cases find_row_by_title_and_date cols.titles cols.dates t d <;> rfl
  have hmaxT : cols.titles.length ≤ max cols.titles.length cols.dates.length :=
    le_max_left _ _
  have hbound : ∀ j, 2 ≤ j → cols.titles.getD (j - 1) "" = t →
      j < 2 + (max cols.titles.length cols.dates.length - 1) := by
    intro j h2 hTj
    have hjl : j - 1 < cols.titles.length := by
      by_contra hge
      rw [List.getD_eq_default _ _ (by omega)] at hTj
      exact ht hTj.symm
    omega
  refine ⟨?_, ?_, ?_⟩
  · intro hexd
    obtain ⟨j, h2j, hTj, hDj⟩ := hexd
    obtain ⟨p, hfind, hp1, hp2, hp3, hmin⟩ :=
      titleCands_find_date cols.titles cols.dates t d
        (max cols.titles.length cols.dates.length - 1) 2
        ⟨j, h2j, hbound j h2j hTj, hTj, hDj⟩
    refine ⟨p.1, ?_, hp1, hp2, hp3,
      fun j' h2' hT' hD' => hmin j' h2' (hbound j' h2' hT') hT' hD'⟩
    rw [hres]
    simp only [find_row_by_title_and_date]
    rw [hfind]
  · intro hnd hex
    obtain ⟨j, h2j, hTj⟩ := hex
    have hnone : (titleCandsAux cols.titles cols.dates t 2
        (max cols.titles.length cols.dates.length - 1)).find?
          (fun q => decide (q.2 = d)) = none := by
      rw [List.find?_eq_none]
      intro q hq
      obtain ⟨hq1, hq2, hq3, hq4⟩ := titleCandsAux_mem cols.titles cols.dates t _ _ q hq
      simp only [decide_eq_true_eq]
      rw [hq4]
      exact hnd q.1 hq1 hq3
    obtain ⟨p, hhead, hp1, hp2, hp3, hmin⟩ :=
      titleCands_first_title cols.titles cols.dates t
        (max cols.titles.length cols.dates.length - 1) 2
        ⟨j, h2j, hbound j h2j hTj, hTj⟩
    refine ⟨p.1, ?_, hp1, hp2, fun j' h2' hT' => hmin j' h2' (hbound j' h2' hT') hT'⟩
    rw [hres]
    simp only [find_row_by_title_and_date]
    rw [hnone, hhead]
    rfl
  · intro hnt
    have hnil : titleCandsAux cols.titles cols.dates t 2
        (max cols.titles.length cols.dates.length - 1) = [] :=
      titleCands_none cols.titles cols.dates t _ 2 (fun j h1 _ => hnt j h1)
    rw [hres]
    simp only [find_row_by_title_and_date]
    rw [hnil]
    rfl

/-- Concrete run of `resolve_sheet_row_title_date`: titles match at rows 2
and 4, the date matches only at row 4, so row 4 is resolved. -/
theorem resolve_sheet_row_title_date_witness :
    ∃ r, resolve_sheet_row
        { dates := ["h", "d1", "d2", "d3"], titles := ["h", "A", "B", "A"],
          yt := [], folder := [], ytid := none }
        none (some "A") (some "d3") none none = some r ∧
      2 ≤ r ∧ (["h", "A", "B", "A"].getD (r - 1) "") = "A" ∧
      (["h", "d1", "d2", "d3"].getD (r - 1) "") = "d3" ∧
      ∀ j, 2 ≤ j → (["h", "A", "B", "A"].getD (j - 1) "") = "A" →
        (["h", "d1", "d2", "d3"].getD (j - 1) "") = "d3" → r ≤ j :=
  (resolve_sheet_row_title_date
    { dates := ["h", "d1", "d2", "d3"], titles := ["h", "A", "B", "A"],
      yt := [], folder := [], ytid := none }
    none none "A" "d3" (by decide) (by decide) (by decide)).1
    ⟨4, by decide, by decide, by decide⟩

/-- C2: the deletion-reconciliation safety valve.  With an empty ledger id
set it deletes nothing and reports an abort reason; with 4 candidates out of
10 examined rows (40%, over the 30% ratio threshold though under the
absolute cap of 10) it deletes nothing and reports an abort reason; with 2
of 10 (20%, under both) the deletion proceeds. -/
theorem reconcile_deletions_safety_valve (rows : List (List String))
    (dbIdsRaw : List String) (oracle : String → Except String Bool)
    (colIdx : Nat) (dryRun : Bool) :
    (dbIdsRaw.filter (fun x => decide (x ≠ "")) = [] →
      (reconcile_youtube_deletions_and_sheet rows dbIdsRaw oracle colIdx
        dryRun).1.deletedRows = [] ∧
      (reconcile_youtube_deletions_and_sheet rows dbIdsRaw oracle colIdx dryRun).1.error =
        some "DB empty; abort." ∧
      (reconcile_youtube_deletions_and_sheet rows dbIdsRaw oracle colIdx dryRun).2 = none) ∧
    (rows.length = 10 →
      (auditRowsAux (dbIdsRaw.filter (fun x => decide (x ≠ ""))) oracle colIdx
        2 rows).1.length = 4 →
      (reconcile_youtube_deletions_and_sheet rows dbIdsRaw oracle colIdx
        dryRun).1.deletedRows = [] ∧
      ((reconcile_youtube_deletions_and_sheet rows dbIdsRaw oracle colIdx
        dryRun).1.error).isSome = true ∧
      (reconcile_youtube_deletions_and_sheet rows dbIdsRaw oracle colIdx dryRun).2 = none) ∧
    (dbIdsRaw.filter (fun x => decide (x ≠ "")) ≠ [] → rows.length = 10 →
      (auditRowsAux (dbIdsRaw.filter (fun x => decide (x ≠ ""))) oracle colIdx
        2 rows).1.length = 2 →
      dryRun = false →
      (reconcile_youtube_deletions_and_sheet rows dbIdsRaw oracle colIdx
        dryRun).1.error = none ∧
      (reconcile_youtube_deletions_and_sheet rows dbIdsRaw oracle colIdx
        dryRun).1.deletedRows =
        (auditRowsAux (dbIdsRaw.filter (fun x => decide (x ≠ ""))) oracle colIdx 2 rows).1 ∧
      (reconcile_youtube_deletions_and_sheet rows dbIdsRaw oracle colIdx dryRun).2 =
        some (auditRowsAux (dbIdsRaw.filter (fun x => decide (x ≠ ""))) oracle colIdx
          2 rows).1) := by
  refine ⟨?_, ?_, ?_⟩
  · intro hdb
    simp only [reconcile_youtube_deletions_and_sheet]
    rw [if_pos hdb]
    exact ⟨rfl, rfl, rfl⟩
  · intro hlen hdel
    simp only [reconcile_youtube_deletions_and_sheet]
    by_cases hdb : dbIdsRaw.filter (fun x => decide (x ≠ "")) = []
    · rw [if_pos hdb]
      exact ⟨rfl, rfl, rfl⟩
    · rw [if_neg hdb, if_pos]
      · exact ⟨rfl, rfl, rfl⟩
      · rw [hlen, hdel, if_neg (by norm_num)]
        left
        norm_num
  · intro hdb hlen hdel hdry
    simp only [reconcile_youtube_deletions_and_sheet]
    rw [if_neg hdb, if_neg]
    · refine ⟨rfl, rfl, ?_⟩
      rw [if_pos]
      constructor
      · exact hdry
      · intro hnil
        rw [hnil] at hdel
        cases hdel
    · rw [hlen, hdel, if_neg (by norm_num)]
      norm_num

/-- Concrete runs of `reconcile_deletions_safety_valve`: an empty ledger
aborts; 4 stale rows out of 10 abort; 2 stale rows out of 10 delete. -/
theorem reconcile_deletions_safety_valve_witness :
    ((reconcile_youtube_deletions_and_sheet [] [] (fun _ => Except.ok true)
        2 true).1.deletedRows = [] ∧
      (reconcile_youtube_deletions_and_sheet [] [] (fun _ => Except.ok true) 2 true).1.error =
        some "DB empty; abort." ∧
      (reconcile_youtube_deletions_and_sheet [] [] (fun _ => Except.ok true) 2 true).2 =
        none) ∧
    ((reconcile_youtube_deletions_and_sheet
        [["", "t", "abcdefghijk"], ["", "t", "abcdefghijk"], ["", "t", "abcdefghijk"],
         ["", "t", "abcdefghijk"], ["", "t", "abcdefghijk"], ["", "t", "abcdefghijk"],
         ["", "t", "MMMMMMMMMMM"], ["", "t", "MMMMMMMMMMM"], ["", "t", "MMMMMMMMMMM"],
         ["", "t", "MMMMMMMMMMM"]]
        ["abcdefghijk"] (fun _ => Except.ok true) 2 false).1.deletedRows = [] ∧
      ((reconcile_youtube_deletions_and_sheet
        [["", "t", "abcdefghijk"], ["", "t", "abcdefghijk"], ["", "t", "abcdefghijk"],
         ["", "t", "abcdefghijk"], ["", "t", "abcdefghijk"], ["", "t", "abcdefghijk"],
         ["", "t", "MMMMMMMMMMM"], ["", "t", "MMMMMMMMMMM"], ["", "t", "MMMMMMMMMMM"],
         ["", "t", "MMMMMMMMMMM"]]
        ["abcdefghijk"] (fun _ => Except.ok true) 2 false).1.error).isSome = true ∧
      (reconcile_youtube_deletions_and_sheet
        [["", "t", "abcdefghijk"], ["", "t", "abcdefghijk"], ["", "t", "abcdefghijk"],
         ["", "t", "abcdefghijk"], ["", "t", "abcdefghijk"], ["", "t", "abcdefghijk"],
         ["", "t", "MMMMMMMMMMM"], ["", "t", "MMMMMMMMMMM"], ["", "t", "MMMMMMMMMMM"],
         ["", "t", "MMMMMMMMMMM"]]
        ["abcdefghijk"] (fun _ => Except.ok true) 2 false).2 = none) ∧
    ((reconcile_youtube_deletions_and_sheet
        [["", "t", "abcdefghijk"], ["", "t", "abcdefghijk"], ["", "t", "abcdefghijk"],
         ["", "t", "abcdefghijk"], ["", "t", "abcdefghijk"], ["", "t", "abcdefghijk"],
         ["", "t", "abcdefghijk"], ["", "t", "abcdefghijk"], ["", "t", "MMMMMMMMMMM"],
         ["", "t", "MMMMMMMMMMM"]]
        ["abcdefghijk"] (fun _ => Except.ok true) 2 false).1.error = none ∧
      (reconcile_youtube_deletions_and_sheet
        [["", "t", "abcdefghijk"], ["", "t", "abcdefghijk"], ["", "t", "abcdefghijk"],
         ["", "t", "abcdefghijk"], ["", "t", "abcdefghijk"], ["", "t", "abcdefghijk"],
         ["", "t", "abcdefghijk"], ["", "t", "abcdefghijk"], ["", "t", "MMMMMMMMMMM"],
         ["", "t", "MMMMMMMMMMM"]]
        ["abcdefghijk"] (fun _ => Except.ok true) 2 false).1.deletedRows =
        (auditRowsAux (["abcdefghijk"].filter (fun x => decide (x ≠ "")))
          (fun _ => Except.ok true) 2 2
          [["", "t", "abcdefghijk"], ["", "t", "abcdefghijk"], ["", "t", "abcdefghijk"],
           ["", "t", "abcdefghijk"], ["", "t", "abcdefghijk"], ["", "t", "abcdefghijk"],
           ["", "t", "abcdefghijk"], ["", "t", "abcdefghijk"], ["", "t", "MMMMMMMMMMM"],
           ["", "t", "MMMMMMMMMMM"]]).1 ∧
      (reconcile_youtube_deletions_and_sheet
        [["", "t", "abcdefghijk"], ["", "t", "abcdefghijk"], ["", "t", "abcdefghijk"],
         ["", "t", "abcdefghijk"], ["", "t", "abcdefghijk"], ["", "t", "abcdefghijk"],
         ["", "t", "abcdefghijk"], ["", "t", "abcdefghijk"], ["", "t", "MMMMMMMMMMM"],
         ["", "t", "MMMMMMMMMMM"]]
        ["abcdefghijk"] (fun _ => Except.ok true) 2 false).2 =
        some (auditRowsAux (["abcdefghijk"].filter (fun x => decide (x ≠ "")))
          (fun _ => Except.ok true) 2 2
          [["", "t", "abcdefghijk"], ["", "t", "abcdefghijk"], ["", "t", "abcdefghijk"],
           ["", "t", "abcdefghijk"], ["", "t", "abcdefghijk"], ["", "t", "abcdefghijk"],
           ["", "t", "abcdefghijk"], ["", "t", "abcdefghijk"], ["", "t", "MMMMMMMMMMM"],
           ["", "t", "MMMMMMMMMMM"]]).1) :=
  ⟨(reconcile_deletions_safety_valve [] [] (fun _ => Except.ok true) 2 true).1 rfl,
   (reconcile_deletions_safety_valve
      [["", "t", "abcdefghijk"], ["", "t", "abcdefghijk"], ["", "t", "abcdefghijk"],
       ["", "t", "abcdefghijk"], ["", "t", "abcdefghijk"], ["", "t", "abcdefghijk"],
       ["", "t", "MMMMMMMMMMM"], ["", "t", "MMMMMMMMMMM"], ["", "t", "MMMMMMMMMMM"],
       ["", "t", "MMMMMMMMMMM"]]
      ["abcdefghijk"] (fun _ => Except.ok true) 2 false).2.1 rfl (by decide),
   (reconcile_deletions_safety_valve
      [["", "t", "abcdefghijk"], ["", "t", "abcdefghijk"], ["", "t", "abcdefghijk"],
       ["", "t", "abcdefghijk"], ["", "t", "abcdefghijk"], ["", "t", "abcdefghijk"],
       ["", "t", "abcdefghijk"], ["", "t", "abcdefghijk"], ["", "t", "MMMMMMMMMMM"],
       ["", "t", "MMMMMMMMMMM"]]
      ["abcdefghijk"] (fun _ => Except.ok true) 2 false).2.2 (by decide) rfl
      (by decide) rfl⟩

theorem rowDeleteReason_missing_on_youtube (oracle : String → Except String Bool)
    (dbIds : List String) (colIdx : Nat) (row : List String)
    (h : rowDeleteReason dbIds oracle colIdx row = some "missing_on_youtube") :
    rowYtId colIdx row ∈ dbIds ∧ oracle (rowYtId colIdx row) = Except.ok false := by
  unfold rowDeleteReason at h
  by_cases hy : rowYtId colIdx row = ""
  · rw [if_pos hy] at h
    cases h
  · rw [if_neg hy] at h
    by_cases hm : rowYtId colIdx row ∈ dbIds
    · rw [if_pos hm] at h
      by_cases hex : youtube_video_exists oracle (rowYtId colIdx row) = false
      · refine ⟨hm, ?_⟩
        unfold youtube_video_exists at hex
        cases horc : oracle (rowYtId colIdx row) with
        | ok b =>
          rw [horc] at hex
          have hb : b = false := hex
          rw [hb]
        | error e =>
          rw [horc] at hex
          exact Bool.noConfusion (hex : true = false)
      · rw [if_neg hex] at h
        cases h
    · rw [if_neg hm] at h
      exact absurd (Option.some.inj h) (by decide)

theorem auditRows_missing_on_youtube (oracle : String → Except String Bool)
    (dbIds : List String) (colIdx : Nat) :
    ∀ (rows : List (List String)) (idx0 : Nat) (entry : Nat × String × String),
      entry ∈ (auditRowsAux dbIds oracle colIdx idx0 rows).2 →
      entry.2.2 = "missing_on_youtube" →
      ∃ row ∈ rows, rowYtId colIdx row ∈ dbIds ∧
        oracle (rowYtId colIdx row) = Except.ok false := by
  intro rows
  induction rows with
  | nil => intro idx0 entry h _; cases h
  | cons row rest ih =>
    intro idx0 entry hmem hreason
    rw [show auditRowsAux dbIds oracle colIdx idx0 (row :: rest) =
        (let title := pyStrip (row.getD 1 "")
         let y := rowYtId colIdx row
         let restRes := auditRowsAux dbIds oracle colIdx (idx0 + 1) rest
         if y = "" then (restRes.1, (idx0, title, "no_id_in_col") :: restRes.2)
         else
           match rowDeleteReason dbIds oracle colIdx row with
           | some reason => (idx0 :: restRes.1, (idx0, title, reason) :: restRes.2)
           | none => restRes) from rfl] at hmem
    simp only [] at hmem
    by_cases hy : rowYtId colIdx row = ""
    · rw [if_pos hy] at hmem
      rcases List.mem_cons.mp hmem with heq | hmem'
      · rw [heq] at hreason
        simp at hreason
      · obtain ⟨r, hr, hprop⟩ := ih (idx0 + 1) entry hmem' hreason
        exact ⟨r, List.mem_cons_of_mem row hr, hprop⟩
    · rw [if_neg hy] at hmem
      cases hreas : rowDeleteReason dbIds oracle colIdx row with
      | some reason =>
        rw [hreas] at hmem
        rcases List.mem_cons.mp hmem with heq | hmem'
        · rw [heq] at hreason
          simp only [] at hreason
          rw [hreason] at hreas
          obtain ⟨h1, h2⟩ := rowDeleteReason_missing_on_youtube oracle dbIds colIdx row hreas
          exact ⟨row, List.mem_cons_self row rest, h1, h2⟩
        · obtain ⟨r, hr, hprop⟩ := ih (idx0 + 1) entry hmem' hreason
          exact ⟨r, List.mem_cons_of_mem row hr, hprop⟩
      | none =>
        rw [hreas] at hmem
        obtain ⟨r, hr, hprop⟩ := ih (idx0 + 1) entry hmem hreason
        exact ⟨r, List.mem_cons_of_mem row hr, hprop⟩

/-- C9: a raised per-video existence check returns True, so a sheet row whose
extracted id the ledger knows is never given the deletion reason
missing_on_youtube because of a failed API call — that reason (whether in the
per-row decision or anywhere in the audit's reasons list) forces an explicit
empty listing result for an id the ledger knows. -/
theorem youtube_exists_error_conservative (oracle : String → Except String Bool) :
    (∀ vid e, oracle vid = Except.error e → youtube_video_exists oracle vid = true) ∧
    (∀ (dbIds : List String) (colIdx : Nat) (row : List String) (e : String),
      rowYtId colIdx row ∈ dbIds → oracle (rowYtId colIdx row) = Except.error e →
      rowDeleteReason dbIds oracle colIdx row = none) ∧
    (∀ (dbIds : List String) (colIdx : Nat) (row : List String),
      rowDeleteReason dbIds oracle colIdx row = some "missing_on_youtube" →
      rowYtId colIdx row ∈ dbIds ∧ oracle (rowYtId colIdx row) = Except.ok false) ∧
    (∀ (dbIds : List String) (colIdx : Nat) (rows : List (List String))
      (idx0 : Nat) (entry : Nat × String × String),
      entry ∈ (auditRowsAux dbIds oracle colIdx idx0 rows).2 →
      entry.2.2 = "missing_on_youtube" →
      ∃ row ∈ rows, rowYtId colIdx row ∈ dbIds ∧
        oracle (rowYtId colIdx row) = Except.ok false) := by
  refine ⟨?_, ?_, ?_, ?_⟩
  · intro vid e h
    unfold youtube_video_exists
    rw [h]
  · intro dbIds colIdx row e hmem herr
    unfold rowDeleteReason
    by_cases hy : rowYtId colIdx row = ""
    · rw [if_pos hy]
    · rw [if_neg hy, if_pos hmem]
      have hex : youtube_video_exists oracle (rowYtId colIdx row) = true := by
        unfold youtube_video_exists
        rw [herr]
      rw [if_neg]
      rw [hex]
      intro hcontra
      cases hcontra
  · exact rowDeleteReason_missing_on_youtube oracle
  · exact auditRows_missing_on_youtube oracle

/-- Concrete run of `youtube_exists_error_conservative`: the check for an id
whose listing raises reports the video as existing, and the audited row is
not marked. -/
theorem youtube_exists_error_conservative_witness :
    youtube_video_exists
      (fun v => if v = "AAAAAAAAAAA" then Except.error "boom" else Except.ok true)
      "AAAAAAAAAAA" = true ∧
    rowDeleteReason ["AAAAAAAAAAA"]
      (fun v => if v = "AAAAAAAAAAA" then Except.error "boom" else Except.ok true)
      0 ["AAAAAAAAAAA"] = none :=
  ⟨(youtube_exists_error_conservative
      (fun v => if v = "AAAAAAAAAAA" then Except.error "boom" else Except.ok true)).1
      "AAAAAAAAAAA" "boom" rfl,
   (youtube_exists_error_conservative
      (fun v => if v = "AAAAAAAAAAA" then Except.error "boom" else Except.ok true)).2.1
      ["AAAAAAAAAAA"] 0 ["AAAAAAAAAAA"] "boom" (by decide) rfl⟩

end AutoScheduler
